import Mathlib

/-!
Shallow embedding of the notification fan-out pipeline
(`push-notify-service`): the grouping/coalescing engine
(`src/utils/notification.rs`, `src/utils/structs.rs`,
`src/utils/account_activity_struct.rs`), the persister worker
(`src/bin/consumer_notification_persister.rs`), the publisher worker's
per-device dispatch (`src/bin/consumer_notification_publisher.rs`) and the
FCM token cache (`src/loading_fcm_token.rs`), together with theorems about
the specified properties.

Conventions of the embedding:
* Rust `i64` timestamps become `Int`; Rust `/` on `i64` truncates toward
  zero, so it is modelled by `Int.tdiv`.
* `chrono::Utc::now().format("%Y-%m-%d %H:%M:%S")` is a hidden input of the
  rendering code; it is made explicit as a `String` parameter `time`.
* The async preference batch lookup becomes an explicit parameter
  `prefs : String → Option NotificationPreferences` (the map it returned);
  `group_by_user_id` substitutes all-true defaults on a miss, as the Rust
  code does.
* `HashMap` contents are modelled as insertion-ordered association lists;
  `map.entry(k).or_default().push(v)` becomes `assocPush`.
* Fallible external effects (database writes, FCM sends, Redis reads and
  writes) are driven by explicit Boolean oracles.
-/

/-- `NotifType` from `src/utils/structs.rs`. -/
inductive NotifType where
  | order
  | transaction
  | account
  | announcement
  | campaign
deriving DecidableEq, Repr

/-- `Display for NotifType` (SCREAMING case strings). -/
def NotifType.toStr : NotifType → String
  | .order => "ORDER"
  | .transaction => "TRANSACTION"
  | .account => "ACCOUNT"
  | .announcement => "ANNOUNCEMENT"
  | .campaign => "CAMPAIGN"

/-- `NotifType::construct_title` from `src/utils/structs.rs`. -/
def NotifType.construct_title : NotifType → String
  | .transaction => "Transaction Notification"
  | .order => "Order Notification"
  | .account => "Account Notification"
  | .announcement => "Announcement Notification"
  | .campaign => "Campaign Notification"

/-- `TradingType` from `src/constants.rs`. -/
inductive TradingType where
  | buy
  | sell
  | add
  | remove
deriving DecidableEq, Repr

/-- `strum` Display of `TradingType` (SCREAMING_SNAKE_CASE). -/
def TradingType.toStr : TradingType → String
  | .buy => "BUY"
  | .sell => "SELL"
  | .add => "ADD"
  | .remove => "REMOVE"

/-- `KycAction` from `src/utils/account_activity_struct.rs`. -/
inductive KycAction where
  | approved
  | upgraded
deriving DecidableEq, Repr

/-- `WhitelistingAction` from `src/utils/account_activity_struct.rs`. -/
inductive WhitelistingAction where
  | enabled
  | disabled
  | added
  | removed
deriving DecidableEq, Repr

/-- `AccountAction` from `src/utils/account_activity_struct.rs`. -/
inductive AccountAction where
  | disabled
  | deleted
deriving DecidableEq, Repr

/-- `MfaAction` from `src/utils/account_activity_struct.rs`. -/
inductive MfaAction where
  | enabled
  | disabled
deriving DecidableEq, Repr

/-- `PasswordAction` from `src/utils/account_activity_struct.rs`. -/
inductive PasswordAction where
  | initialized
  | change
  | reset
deriving DecidableEq, Repr

/-- `AccountNotifType` from `src/utils/account_activity_struct.rs`. -/
inductive AccountNotifType where
  | kyc (action : KycAction)
  | whitelisting (action : WhitelistingAction)
  | account (action : AccountAction)
  | mfa (action : MfaAction)
  | password (action : PasswordAction)
deriving DecidableEq, Repr

/-- `Display for AccountNotifType` from `src/utils/account_activity_struct.rs`. -/
def AccountNotifType.toStr : AccountNotifType → String
  | .kyc .approved => "verify KYC"
  | .kyc .upgraded => "upgrade KYC"
  | .whitelisting .enabled => "enable withdrawal address whitelisting"
  | .whitelisting .disabled => "disable withdrawal address whitelisting"
  | .whitelisting .added => "add withdrawal address to whitelist"
  | .whitelisting .removed => "remove withdrawal address from whitelist"
  | .account .disabled => "disable account"
  | .account .deleted => "delete account"
  | .mfa .enabled => "enable two-factor authentication"
  | .mfa .disabled => "disable two-factor authentication"
  | .password .initialized => "initialize password"
  | .password .change => "change password"
  | .password .reset => "reset password"

/-- `ActionStatus` from `src/utils/account_activity_struct.rs`. -/
inductive ActionStatus where
  | failed
  | success
deriving DecidableEq, Repr

/-- `AccountNotifData` from `src/utils/account_activity_struct.rs`. -/
structure AccountNotifData where
  user_id : String
  activity_type : AccountNotifType
  action_status : ActionStatus
deriving DecidableEq, Repr

/-- `AccountNotifData::construct_message`. The Rust code computes
`let time = chrono::Utc::now().format("%Y-%m-%d %H:%M:%S").to_string()`;
that hidden wall-clock input is the explicit `time` parameter here. -/
def AccountNotifData.construct_message (d : AccountNotifData) (time : String) : String :=
  match d.action_status with
  | .failed =>
      "Your request to " ++ d.activity_type.toStr ++ " failed on " ++ time ++
        ". If you do not recognize this activity, please contact us immediately."
  | .success =>
      match d.activity_type with
      | .kyc .approved => "Your identity verification was approved on " ++ time ++ "."
      | .kyc .upgraded => "Your verification level was upgraded on " ++ time ++ "."
      | .whitelisting .enabled =>
          "Withdrawal address whitelisting was enabled on " ++ time ++ "."
      | .whitelisting .disabled =>
          "Withdrawal address whitelisting was disabled on " ++ time ++ "."
      | .whitelisting .added =>
          "A new withdrawal address was added to your whitelist on " ++ time ++ "."
      | .whitelisting .removed =>
          "A withdrawal address was removed from your whitelist on " ++ time ++ "."
      | .account .disabled =>
          "Your account was disabled on " ++ time ++
            ". If you do not recognize this activity, please contact us immediately."
      | .account .deleted =>
          "Your account was permanently deleted on " ++ time ++
            ". All data has been removed as requested."
      | .mfa .enabled => "Two-factor authentication was enabled on " ++ time ++ "."
      | .mfa .disabled =>
          "Two-factor authentication was disabled on " ++ time ++
            ". If you do not recognize this activity, please contact us immediately."
      | .password .initialized =>
          "Your account password was set up on " ++ time ++
            ". Your account is ready to use."
      | .password .change =>
          "Your password was changed on " ++ time ++
            ". If you do not recognize this activity, please contact us immediately."
      | .password .reset =>
          "Your password was reset on " ++ time ++
            ". If you do not recognize this activity, please contact us immediately."

/-- `OrderNotifData` from `src/utils/structs.rs` (`order_id : u64`). -/
structure OrderNotifData where
  order_id : Nat
  status : String
deriving DecidableEq, Repr

/-- `TransactionNotifData` from `src/utils/structs.rs`. -/
structure TransactionNotifData where
  id : Nat
  user_id : String
  asset : String
  network_id : String
  tx_hash : String
  type : TradingType
  amount : String
  status : String
deriving DecidableEq, Repr

/-- `NotifMetadata` from `src/utils/structs.rs`. -/
inductive NotifMetadata where
  | order (data : OrderNotifData)
  | transaction (data : TransactionNotifData)
  | account (data : AccountNotifData)
deriving DecidableEq, Repr

/-- `NotifMetadata::construct_message` from `src/utils/structs.rs`.
Returns `Except` for the `anyhow::Result`; `time` is the formatted
`chrono::Utc::now()` wall-clock string the Transaction and Account arms read
(the Order arm never uses it). -/
def NotifMetadata.construct_message : NotifMetadata → String → Except String String
  | .order d, _ =>
      let order_id := toString d.order_id
      match d.status with
      | "NEW" => .ok ("Order " ++ order_id ++ " placed successfully.")
      | "FILLED" => .ok ("Order " ++ order_id ++ " matched.")
      | "CANCELLED" => .ok ("Order " ++ order_id ++ " cancelled.")
      | "REJECTED" => .ok ("Order " ++ order_id ++ " rejected.")
      | other =>
          .error ("Skipping notification for order " ++ order_id ++
            " with unsupported status: " ++ other)
  | .transaction d, time =>
      let amount := d.amount
      let asset := d.asset
      match d.status with
      | "COMPLETED" =>
          match d.type with
          | .add =>
              .ok ("You have successfully deposit " ++ amount ++ " " ++ asset ++
                " at " ++ time)
          | .remove =>
              .ok ("You have successfully withdraw " ++ amount ++ " " ++ asset ++
                " at " ++ time ++
                ". If you do not recognize this activity, please contact us immediately.")
          | .buy =>
              .ok ("You have successfully withdraw " ++ amount ++ " " ++ asset ++
                " at " ++ time ++
                ". If you do not recognize this activity, please contact us immediately.")
          | .sell =>
              .ok ("You have successfully withdraw " ++ amount ++ " " ++ asset ++
                " at " ++ time ++
                ". If you do not recognize this activity, please contact us immediately.")
      | "FAILED" =>
          .ok ("Your " ++ d.type.toStr ++ " transaction of " ++ amount ++ " " ++
            asset ++ " failed at " ++ time ++ ".")
      | "REJECTED" =>
          .ok ("Your " ++ d.type.toStr ++ " transaction of " ++ amount ++ " " ++
            asset ++ " failed at " ++ time ++ ".")
      | other =>
          .error ("Skipping notification for transaction with unsupported status: " ++
            other)
  | .account d, time => .ok (d.construct_message time)

/-- `NotifMessage` from `src/utils/structs.rs` (`timestamp : i64` in ms). -/
structure NotifMessage where
  user_id : String
  notif_type : NotifType
  timestamp : Int
  metadata : NotifMetadata
deriving DecidableEq, Repr

/-- `NotificationPreferences` from `src/utils/structs.rs`. -/
structure NotificationPreferences where
  announcement : Bool
  account : Bool
  campaign : Bool
  transaction : Bool
deriving DecidableEq, Repr

/-- `NotificationPreferences::contains` from `src/utils/structs.rs`:
note that `Order` is gated by the `transaction` flag. -/
def NotificationPreferences.contains (p : NotificationPreferences) :
    NotifType → Bool
  | .transaction => p.transaction
  | .order => p.transaction
  | .account => p.account
  | .announcement => p.announcement
  | .campaign => p.campaign

/-- The default preferences substituted by `group_by_user_id` when the batch
preference map has no entry for a user (all four flags true). -/
def defaultPreferences : NotificationPreferences :=
  { announcement := true, account := true, campaign := true, transaction := true }

/-- `NotifKey` from `src/utils/notification.rs`. -/
structure NotifKey where
  user_id : String
  second : Int
  type : NotifType
deriving DecidableEq, Repr

/-- `NotificationWithTimestamp` from `src/utils/notification.rs`. -/
structure NotificationWithTimestamp where
  message : String
  timestamp : Int
deriving DecidableEq, Repr

/-- Lookup in an insertion-ordered association list (the read side of the
`HashMap` model). -/
def lookupAssoc {κ ν : Type} [DecidableEq κ] : List (κ × List ν) → κ → Option (List ν)
  | [], _ => none
  | (k0, l0) :: rest, k => if k0 = k then some l0 else lookupAssoc rest k

/-- `map.entry(k).or_default().push(v)` on the association-list model of a
`HashMap<κ, Vec<ν>>`. -/
def assocPush {κ ν : Type} [DecidableEq κ] : List (κ × List ν) → κ → ν → List (κ × List ν)
  | [], k, v => [(k, [v])]
  | (k0, l0) :: rest, k, v =>
      if k0 = k then (k0, l0 ++ [v]) :: rest else (k0, l0) :: assocPush rest k v

lemma lookupAssoc_assocPush {κ ν : Type} [DecidableEq κ]
    (acc : List (κ × List ν)) (k' k : κ) (v : ν) :
    lookupAssoc (assocPush acc k' v) k =
      if k' = k then some (((lookupAssoc acc k).getD []) ++ [v])
      else lookupAssoc acc k := by
  induction acc with
  | nil =>
      by_cases h : k' = k <;> simp [assocPush, lookupAssoc, h]
  | cons e rest ih =>
      obtain ⟨k0, l0⟩ := e
      by_cases h0 : k0 = k'
      · subst h0
        by_cases hk : k0 = k
        · subst hk
          simp [assocPush, lookupAssoc]
        · simp [assocPush, lookupAssoc, hk]
      · by_cases hk : k0 = k
        · subst hk
          have hk' : ¬ k' = k0 := fun h => h0 h.symm
          simp [assocPush, lookupAssoc, h0, hk']
        · simp [assocPush, lookupAssoc, h0, hk, ih]

lemma mem_assocPush {κ ν : Type} [DecidableEq κ]
    (acc : List (κ × List ν)) (k : κ) (v : ν) :
    ∀ e ∈ assocPush acc k v, ∀ x ∈ e.2,
      (∃ e' ∈ acc, e'.1 = e.1 ∧ x ∈ e'.2) ∨ (e.1 = k ∧ x = v) := by
  induction acc with
  | nil =>
      intro e he x hx
      simp [assocPush] at he
      subst he
      simp at hx
      exact Or.inr ⟨rfl, hx⟩
  | cons e0 rest ih =>
      obtain ⟨k0, l0⟩ := e0
      intro e he x hx
      by_cases h0 : k0 = k
      · subst h0
        simp [assocPush] at he
        rcases he with he | he
        · subst he
          simp at hx
          rcases hx with hx | hx
          · exact Or.inl ⟨(k0, l0), by simp, rfl, hx⟩
          · exact Or.inr ⟨rfl, hx⟩
        · exact Or.inl ⟨e, by simp [he], rfl, hx⟩
      · simp [assocPush, h0] at he
        rcases he with he | he
        · subst he
          exact Or.inl ⟨(k0, l0), by simp, rfl, hx⟩
        · rcases ih e he x hx with ⟨e', he', h1, h2⟩ | h
          · exact Or.inl ⟨e', by simp [he'], h1, h2⟩
          · exact Or.inr h

lemma map_fst_assocPush {κ ν : Type} [DecidableEq κ]
    (acc : List (κ × List ν)) (k : κ) (v : ν) :
    (assocPush acc k v).map Prod.fst =
      if k ∈ acc.map Prod.fst then acc.map Prod.fst
      else acc.map Prod.fst ++ [k] := by
  induction acc with
  | nil => simp [assocPush]
  | cons e0 rest ih =>
      obtain ⟨k0, l0⟩ := e0
      by_cases h0 : k0 = k
      · subst h0
        simp [assocPush]
      · have hne : ¬ k = k0 := fun h => h0 h.symm
        by_cases hmem : k ∈ rest.map Prod.fst
        · simp [assocPush, h0, ih, hmem, hne]
        · simp [assocPush, h0, ih, hmem, hne]

lemma nodup_keys_assocPush {κ ν : Type} [DecidableEq κ]
    (acc : List (κ × List ν)) (k : κ) (v : ν)
    (h : (acc.map Prod.fst).Nodup) :
    ((assocPush acc k v).map Prod.fst).Nodup := by
  rw [map_fst_assocPush]
  by_cases hmem : k ∈ acc.map Prod.fst
  · simpa [hmem] using h
  · simp only [hmem, if_false]
    rw [List.nodup_append]
    refine ⟨h, List.nodup_singleton _, ?_⟩
    intro a ha hk
    simp at hk
    subst hk
    exact hmem ha

lemma nonempty_vals_assocPush {κ ν : Type} [DecidableEq κ]
    (acc : List (κ × List ν)) (k : κ) (v : ν)
    (h : ∀ e ∈ acc, e.2 ≠ []) :
    ∀ e ∈ assocPush acc k v, e.2 ≠ [] := by
  induction acc with
  | nil =>
      intro e he
      simp [assocPush] at he
      subst he
      simp
  | cons e0 rest ih =>
      obtain ⟨k0, l0⟩ := e0
      intro e he
      by_cases h0 : k0 = k
      · subst h0
        simp [assocPush] at he
        rcases he with he | he
        · subst he
          simp
        · exact h e (by simp [he])
      · simp [assocPush, h0] at he
        rcases he with he | he
        · subst he
          exact h (k0, l0) (by simp)
        · exact ih (fun e' he' => h e' (by simp [he'])) e he

lemma lookupAssoc_eq_of_mem {κ ν : Type} [DecidableEq κ]
    {acc : List (κ × List ν)} {k : κ} {l : List ν}
    (hnd : (acc.map Prod.fst).Nodup) (hmem : (k, l) ∈ acc) :
    lookupAssoc acc k = some l := by
  induction acc with
  | nil => simp at hmem
  | cons e0 rest ih =>
      obtain ⟨k0, l0⟩ := e0
      simp at hmem
      rcases hmem with ⟨h1, h2⟩ | hmem
      · subst h1; subst h2
        simp [lookupAssoc]
      · rw [List.map_cons, List.nodup_cons] at hnd
        have hk0 : k0 ≠ k := by
          intro h
          subst h
          exact hnd.1 (List.mem_map.mpr ⟨(k0, l), hmem, rfl⟩)
        simp [lookupAssoc, hk0]
        exact ih hnd.2 hmem

lemma mem_of_lookupAssoc {κ ν : Type} [DecidableEq κ]
    {acc : List (κ × List ν)} {k : κ} {l : List ν}
    (h : lookupAssoc acc k = some l) : (k, l) ∈ acc := by
  induction acc with
  | nil => simp [lookupAssoc] at h
  | cons e0 rest ih =>
      obtain ⟨k0, l0⟩ := e0
      by_cases h0 : k0 = k
      · subst h0
        simp [lookupAssoc] at h
        subst h
        simp
      · simp [lookupAssoc, h0] at h
        exact List.mem_cons_of_mem _ (ih h)

/-- The sort key of `notif_message.sort_by_key(|m| m.timestamp)`:
`sort_by_key` is a stable sort by `timestamp`, modelled with `mergeSort`. -/
def notifLe (a b : NotifMessage) : Bool :=
  decide (a.timestamp ≤ b.timestamp)

/-- The `NotifKey` built for an event inside `group_by_user_id`:
`second = timestamp / 1000` with Rust `i64` division (truncation toward
zero, `Int.tdiv`). -/
def keyOf (m : NotifMessage) : NotifKey :=
  { user_id := m.user_id, second := m.timestamp.tdiv 1000, type := m.notif_type }

/-- One iteration of the event loop in `group_by_user_id`
(`src/utils/notification.rs` lines 32-87): build the key, look up the
preference (defaults on a miss), render the message (skip on error), and
append to the group entry when the preference flag for the type is set. -/
def group_step (prefs : String → Option NotificationPreferences) (time : String)
    (acc : List (NotifKey × List NotificationWithTimestamp)) (m : NotifMessage) :
    List (NotifKey × List NotificationWithTimestamp) :=
  let key := keyOf m
  let preference := (prefs m.user_id).getD defaultPreferences
  match m.metadata.construct_message time with
  | .error _ => acc
  | .ok msg =>
      if preference.contains m.notif_type then
        assocPush acc key { message := msg, timestamp := m.timestamp }
      else acc

/-- `group_by_user_id` from `src/utils/notification.rs`: stable sort by
timestamp, then fold the per-event step into an (insertion-ordered model of
the) `HashMap`. `prefs` is the map returned by the batch preference lookup
and `time` the formatted wall clock read by the renderer. -/
def group_by_user_id (msgs : List NotifMessage)
    (prefs : String → Option NotificationPreferences) (time : String) :
    List (NotifKey × List NotificationWithTimestamp) :=
  (msgs.mergeSort notifLe).foldl (group_step prefs time) []

/-- The contribution of one event to the group of key `k`: `some` of the
rendered notification precisely when the event belongs to `k`, renders
without error, and passes the preference filter. -/
def entryFor (prefs : String → Option NotificationPreferences) (time : String)
    (k : NotifKey) (m : NotifMessage) : Option NotificationWithTimestamp :=
  if keyOf m = k then
    match m.metadata.construct_message time with
    | .error _ => none
    | .ok msg =>
        if ((prefs m.user_id).getD defaultPreferences).contains m.notif_type then
          some { message := msg, timestamp := m.timestamp }
        else none
  else none

lemma entryFor_some {prefs : String → Option NotificationPreferences}
    {time : String} {k : NotifKey} {m : NotifMessage}
    {n : NotificationWithTimestamp}
    (he : entryFor prefs time k m = some n) :
    keyOf m = k ∧ n.timestamp = m.timestamp ∧
      m.metadata.construct_message time = .ok n.message ∧
      ((prefs m.user_id).getD defaultPreferences).contains m.notif_type = true := by
  unfold entryFor at he
  by_cases hk : keyOf m = k
  · simp only [hk, if_true] at he
    cases hcm : m.metadata.construct_message time with
    | error e => rw [hcm] at he; simp at he
    | ok msg =>
        rw [hcm] at he
        by_cases hp : ((prefs m.user_id).getD defaultPreferences).contains m.notif_type
        · simp only [hp, if_true] at he
          have hn : n = { message := msg, timestamp := m.timestamp } := by
            injection he with h
            exact h.symm
          subst hn
          exact ⟨hk, rfl, rfl, hp⟩
        · simp [hp] at he
  · simp [hk] at he

lemma group_step_of_entryFor_some {prefs : String → Option NotificationPreferences}
    {time : String} {k : NotifKey} {m : NotifMessage}
    {n : NotificationWithTimestamp}
    (he : entryFor prefs time k m = some n)
    (acc : List (NotifKey × List NotificationWithTimestamp)) :
    group_step prefs time acc m = assocPush acc k n := by
  obtain ⟨hk, hts, hcm, hp⟩ := entryFor_some he
  unfold group_step
  rw [hcm]
  simp only [hp, if_true, hk]
  congr 1
  cases n
  simp at hts ⊢
  exact hts.symm

lemma lookup_group_step_of_entryFor_none
    {prefs : String → Option NotificationPreferences}
    {time : String} {k : NotifKey} {m : NotifMessage}
    (he : entryFor prefs time k m = none)
    (acc : List (NotifKey × List NotificationWithTimestamp)) :
    lookupAssoc (group_step prefs time acc m) k = lookupAssoc acc k := by
  unfold group_step
  by_cases hk : keyOf m = k
  · unfold entryFor at he
    simp only [hk, if_true] at he
    cases hcm : m.metadata.construct_message time with
    | error e => simp
    | ok msg =>
        rw [hcm] at he
        by_cases hp : ((prefs m.user_id).getD defaultPreferences).contains m.notif_type
        · simp [hp] at he
        · simp [hp]
  · cases hcm : m.metadata.construct_message time with
    | error e => simp
    | ok msg =>
        by_cases hp : ((prefs m.user_id).getD defaultPreferences).contains m.notif_type
        · simp only [hp, if_true]
          rw [lookupAssoc_assocPush]
          simp [hk]
        · simp [hp]

/-- Combining an existing entry with the remaining contributions. -/
def combineGroup (o : Option (List NotificationWithTimestamp))
    (xs : List NotificationWithTimestamp) : Option (List NotificationWithTimestamp) :=
  match o with
  | some ys => some (ys ++ xs)
  | none => if xs.isEmpty then none else some xs

lemma lookup_foldl_group_step (prefs : String → Option NotificationPreferences)
    (time : String) (k : NotifKey) :
    ∀ (l : List NotifMessage) (acc : List (NotifKey × List NotificationWithTimestamp)),
      lookupAssoc (l.foldl (group_step prefs time) acc) k =
        combineGroup (lookupAssoc acc k) (l.filterMap (entryFor prefs time k)) := by
  intro l
  induction l with
  | nil =>
      intro acc
      cases h : lookupAssoc acc k <;> simp [combineGroup, h]
  | cons m rest ih =>
      intro acc
      rw [List.foldl_cons, ih, List.filterMap_cons]
      cases he : entryFor prefs time k m with
      | none =>
          rw [lookup_group_step_of_entryFor_none he]
      | some n =>
          rw [group_step_of_entryFor_some he, lookupAssoc_assocPush]
          simp only [if_pos rfl]
          cases h : lookupAssoc acc k <;> simp [combineGroup, h]

lemma lookup_group_by_user_id (msgs : List NotifMessage)
    (prefs : String → Option NotificationPreferences) (time : String) (k : NotifKey) :
    lookupAssoc (group_by_user_id msgs prefs time) k =
      combineGroup none
        ((msgs.mergeSort notifLe).filterMap (entryFor prefs time k)) := by
  unfold group_by_user_id
  rw [lookup_foldl_group_step]
  rfl

lemma notifLe_trans : ∀ a b c : NotifMessage,
    notifLe a b = true → notifLe b c = true → notifLe a c = true := by
  intro a b c hab hbc
  simp [notifLe] at *
  omega

lemma notifLe_total : ∀ a b : NotifMessage,
    (notifLe a b || notifLe b a) = true := by
  intro a b
  simp [notifLe]
  omega

/-- Stability of the sort: the subsequence of events carrying one fixed
timestamp is unchanged by `mergeSort` with `notifLe`. -/
lemma filter_timestamp_mergeSort (msgs : List NotifMessage) (c : Int) :
    (msgs.mergeSort notifLe).filter (fun m => decide (m.timestamp = c)) =
      msgs.filter (fun m => decide (m.timestamp = c)) := by
  set p : NotifMessage → Bool := fun m => decide (m.timestamp = c) with hp
  have hpair : (msgs.filter p).Pairwise (fun a b => notifLe a b = true) := by
    apply List.pairwise_of_forall_mem_list
    intro a ha b hb
    have ha' := (List.mem_filter.mp ha).2
    have hb' := (List.mem_filter.mp hb).2
    simp [hp] at ha' hb'
    simp [notifLe, ha', hb']
  have hsub : (msgs.filter p).Sublist (msgs.mergeSort notifLe) :=
    List.sublist_mergeSort notifLe_trans notifLe_total hpair (List.filter_sublist msgs)
  have hsub2 : ((msgs.filter p).filter p).Sublist ((msgs.mergeSort notifLe).filter p) :=
    hsub.filter p
  have hself : (msgs.filter p).filter p = msgs.filter p :=
    List.filter_eq_self.mpr (fun a ha => (List.mem_filter.mp ha).2)
  rw [hself] at hsub2
  have hperm : ((msgs.mergeSort notifLe).filter p).Perm (msgs.filter p) :=
    (List.mergeSort_perm msgs notifLe).filter p
  exact (hsub2.eq_of_length hperm.length_eq.symm).symm

lemma filter_ts_filterMap (f : NotifMessage → Option NotificationWithTimestamp)
    (hf : ∀ m n, f m = some n → n.timestamp = m.timestamp) (c : Int) :
    ∀ l : List NotifMessage,
      (l.filterMap f).filter (fun n => decide (n.timestamp = c)) =
        (l.filter (fun m => decide (m.timestamp = c))).filterMap f := by
  intro l
  induction l with
  | nil => simp
  | cons m rest ih =>
      cases hm : f m with
      | none =>
          by_cases hc : m.timestamp = c
          · simp [List.filterMap_cons, List.filter_cons, hm, hc, ih]
          · simp [List.filterMap_cons, List.filter_cons, hm, hc, ih]
      | some n =>
          have hts := hf m n hm
          by_cases hc : m.timestamp = c
          · simp [List.filterMap_cons, List.filter_cons, hm, hc, hts, ih]
          · simp [List.filterMap_cons, List.filter_cons, hm, hc, hts, ih]

lemma mem_group_step {prefs : String → Option NotificationPreferences}
    {time : String} (acc : List (NotifKey × List NotificationWithTimestamp))
    (m : NotifMessage) :
    ∀ e ∈ group_step prefs time acc m, ∀ x ∈ e.2,
      (∃ e' ∈ acc, e'.1 = e.1 ∧ x ∈ e'.2) ∨
        (e.1 = keyOf m ∧ x.timestamp = m.timestamp) := by
  unfold group_step
  cases hcm : m.metadata.construct_message time with
  | error e =>
      intro e he x hx
      exact Or.inl ⟨e, he, rfl, hx⟩
  | ok msg =>
      by_cases hp : ((prefs m.user_id).getD defaultPreferences).contains m.notif_type
      · simp only [hp, if_true]
        intro e he x hx
        rcases mem_assocPush acc (keyOf m) { message := msg, timestamp := m.timestamp }
          e he x hx with h | ⟨h1, h2⟩
        · exact Or.inl h
        · exact Or.inr ⟨h1, by rw [h2]⟩
      · simp only [hp, if_false]
        intro e he x hx
        exact Or.inl ⟨e, he, rfl, hx⟩

lemma group_step_shape (prefs : String → Option NotificationPreferences)
    (time : String) (acc : List (NotifKey × List NotificationWithTimestamp))
    (m : NotifMessage) :
    group_step prefs time acc m = acc ∨
      ∃ n : NotificationWithTimestamp,
        group_step prefs time acc m = assocPush acc (keyOf m) n := by
  unfold group_step
  cases hcm : m.metadata.construct_message time with
  | error e => exact Or.inl rfl
  | ok msg =>
      by_cases hp : ((prefs m.user_id).getD defaultPreferences).contains m.notif_type
      · exact Or.inr ⟨{ message := msg, timestamp := m.timestamp }, by simp [hp]⟩
      · exact Or.inl (by simp [hp])

lemma second_foldl_group_step {prefs : String → Option NotificationPreferences}
    {time : String} :
    ∀ (l : List NotifMessage) (acc : List (NotifKey × List NotificationWithTimestamp)),
      (∀ e ∈ acc, ∀ x ∈ e.2, x.timestamp.tdiv 1000 = e.1.second) →
      ∀ e ∈ l.foldl (group_step prefs time) acc, ∀ x ∈ e.2,
        x.timestamp.tdiv 1000 = e.1.second := by
  intro l
  induction l with
  | nil => intro acc h; simpa using h
  | cons m rest ih =>
      intro acc h
      rw [List.foldl_cons]
      apply ih
      intro e he x hx
      rcases mem_group_step acc m e he x hx with ⟨e', he', h1, h2⟩ | ⟨h1, h2⟩
      · rw [← h1]; exact h e' he' x h2
      · rw [h1, h2]; rfl

lemma nonempty_foldl_group_step {prefs : String → Option NotificationPreferences}
    {time : String} :
    ∀ (l : List NotifMessage) (acc : List (NotifKey × List NotificationWithTimestamp)),
      (∀ e ∈ acc, e.2 ≠ []) →
      ∀ e ∈ l.foldl (group_step prefs time) acc, e.2 ≠ [] := by
  intro l
  induction l with
  | nil => intro acc h; simpa using h
  | cons m rest ih =>
      intro acc h
      rw [List.foldl_cons]
      apply ih
      rcases group_step_shape prefs time acc m with hs | ⟨n, hs⟩
      · rw [hs]; exact h
      · rw [hs]; exact nonempty_vals_assocPush acc (keyOf m) n h

lemma nodup_keys_foldl_group_step {prefs : String → Option NotificationPreferences}
    {time : String} :
    ∀ (l : List NotifMessage) (acc : List (NotifKey × List NotificationWithTimestamp)),
      (acc.map Prod.fst).Nodup →
      ((l.foldl (group_step prefs time) acc).map Prod.fst).Nodup := by
  intro l
  induction l with
  | nil => intro acc h; simpa using h
  | cons m rest ih =>
      intro acc h
      rw [List.foldl_cons]
      apply ih
      rcases group_step_shape prefs time acc m with hs | ⟨n, hs⟩
      · rw [hs]; exact h
      · rw [hs]; exact nodup_keys_assocPush acc (keyOf m) n h

lemma group_by_user_id_nodup_keys (msgs : List NotifMessage)
    (prefs : String → Option NotificationPreferences) (time : String) :
    ((group_by_user_id msgs prefs time).map Prod.fst).Nodup :=
  nodup_keys_foldl_group_step _ [] (by simp)

lemma group_by_user_id_nonempty (msgs : List NotifMessage)
    (prefs : String → Option NotificationPreferences) (time : String) :
    ∀ e ∈ group_by_user_id msgs prefs time, e.2 ≠ [] :=
  nonempty_foldl_group_step _ [] (by simp)

lemma group_by_user_id_second (msgs : List NotifMessage)
    (prefs : String → Option NotificationPreferences) (time : String) :
    ∀ e ∈ group_by_user_id msgs prefs time, ∀ x ∈ e.2,
      x.timestamp.tdiv 1000 = e.1.second :=
  second_foldl_group_step _ [] (by simp)

lemma entryFor_timestamp {prefs : String → Option NotificationPreferences}
    {time : String} {k : NotifKey} :
    ∀ (m : NotifMessage) (n : NotificationWithTimestamp),
      entryFor prefs time k m = some n → n.timestamp = m.timestamp :=
  fun _ _ he => (entryFor_some he).2.1

lemma pairwise_ts_filterMap {prefs : String → Option NotificationPreferences}
    {time : String} {k : NotifKey} {l : List NotifMessage}
    (h : l.Pairwise (fun a b => notifLe a b = true)) :
    (l.filterMap (entryFor prefs time k)).Pairwise
      (fun a b => a.timestamp ≤ b.timestamp) := by
  rw [List.pairwise_filterMap]
  refine h.imp ?_
  intro a b hab x hx y hy
  have hxa := entryFor_timestamp a x hx
  have hyb := entryFor_timestamp b y hy
  simp [notifLe] at hab
  rw [hxa, hyb]
  exact hab

lemma pairwise_getLast_max {l : List NotificationWithTimestamp}
    {x : NotificationWithTimestamp}
    (h : l.Pairwise (fun a b => a.timestamp ≤ b.timestamp))
    (hx : l.getLast? = some x) :
    ∀ n ∈ l, n.timestamp ≤ x.timestamp := by
  obtain ⟨ys, rfl⟩ := List.getLast?_eq_some_iff.mp hx
  rw [List.pairwise_append] at h
  intro n hn
  rcases List.mem_append.mp hn with hn | hn
  · exact h.2.2 n hn x (by simp)
  · simp at hn
    rw [hn]

/-- The value list stored under key `k`, via the per-event contributions of
the sorted input. -/
lemma group_by_user_id_values (msgs : List NotifMessage)
    (prefs : String → Option NotificationPreferences) (time : String)
    (k : NotifKey) (l : List NotificationWithTimestamp)
    (h : lookupAssoc (group_by_user_id msgs prefs time) k = some l) :
    l = (msgs.mergeSort notifLe).filterMap (entryFor prefs time k) := by
  rw [lookup_group_by_user_id] at h
  unfold combineGroup at h
  by_cases hl : ((msgs.mergeSort notifLe).filterMap (entryFor prefs time k)).isEmpty
  · simp [hl] at h
  · simp [hl] at h
    exact h.symm

/-- Smallest seconds value representable by a chrono `NaiveDateTime`
(midnight of January 1 of year -262144). -/
def chronoMinSecs : Int := -8334632937600

/-- Largest seconds value representable by a chrono `NaiveDateTime`
(the last second of December 31 of year 262143). -/
def chronoMaxSecs : Int := 8210298412799

/-- Domain of `chrono::DateTime::from_timestamp_millis`: it computes
`secs = millis.div_euclid(1000)` (Euclidean division, Lean `Int` `/`) and
returns `None` when `secs` falls outside the `NaiveDateTime` range. -/
def chronoValidMillis (ms : Int) : Bool :=
  decide (chronoMinSecs ≤ ms / 1000 ∧ ms / 1000 ≤ chronoMaxSecs)

/-- `UserNotification` from `src/models/user_notifications.rs` (the
server-assigned `id` is omitted; the bson `DateTime` values are modelled by
their millisecond timestamps). -/
structure UserNotification where
  type : String
  user_id : String
  title : String
  message : String
  created_at : Int
  updated_at : Int
  is_read : Bool
deriving DecidableEq, Repr

/-- The record built by the persister's `process` for key `k` and rendered
notification `n`: `type` and `title` derive from the key's type, message
and both timestamps from the notification, `is_read = false`. -/
def mkRecord (k : NotifKey) (n : NotificationWithTimestamp) : UserNotification :=
  { type := k.type.toStr
    user_id := k.user_id
    title := k.type.construct_title
    message := n.message
    created_at := n.timestamp
    updated_at := n.timestamp
    is_read := false }

namespace Persister

/-- The `Transaction | Account` arm of the persister's `process`: one write
per element, in order. An invalid timestamp makes
`DateTime::from_timestamp_millis` fail and the `?` aborts the whole batch;
a failed `create` (oracle `wOk` false at that write index) is logged and
skipped. Returns (attempted writes, successful writes, next write index,
success flag). -/
def persistEach (k : NotifKey) :
    List NotificationWithTimestamp → (Nat → Bool) → Nat →
      List UserNotification × List UserNotification × Nat × Bool
  | [], _, idx => ([], [], idx, true)
  | n :: rest, wOk, idx =>
      if chronoValidMillis n.timestamp then
        let r := mkRecord k n
        let out := persistEach k rest wOk (idx + 1)
        (r :: out.1, if wOk idx then r :: out.2.1 else out.2.1, out.2.2.1, out.2.2.2)
      else ([], [], idx, false)

/-- One grouped entry of the persister's `process`: `Order` writes one
record from `list.last()`, `Transaction | Account` write one record per
element, any other type is logged and skipped. -/
def persistEntry (k : NotifKey) (l : List NotificationWithTimestamp)
    (wOk : Nat → Bool) (idx : Nat) :
    List UserNotification × List UserNotification × Nat × Bool :=
  match k.type with
  | .order =>
      match l.getLast? with
      | none => ([], [], idx, true)
      | some last =>
          if chronoValidMillis last.timestamp then
            let r := mkRecord k last
            ([r], if wOk idx then [r] else [], idx + 1, true)
          else ([], [], idx, false)
  | .transaction => persistEach k l wOk idx
  | .account => persistEach k l wOk idx
  | .announcement => ([], [], idx, true)
  | .campaign => ([], [], idx, true)

/-- The persister's per-batch `process`
(`src/bin/consumer_notification_persister.rs` lines 84-168) over the
grouped map, with the database `create` calls driven by the oracle `wOk`.
A timestamp-conversion failure propagates (`?`) and aborts the batch; a
failed `create` only skips that record. -/
def processGo :
    List (NotifKey × List NotificationWithTimestamp) → (Nat → Bool) → Nat →
      List UserNotification × List UserNotification × Bool
  | [], _, _ => ([], [], true)
  | (k, l) :: rest, wOk, idx =>
      let out := persistEntry k l wOk idx
      if out.2.2.2 then
        let out2 := processGo rest wOk out.2.2.1
        (out.1 ++ out2.1, out.2.1 ++ out2.2.1, out2.2.2)
      else (out.1, out.2.1, false)

/-- Entry point of the persister batch processing: attempted records,
successfully written records, and whether `process` returned `Ok`. -/
def process (grouped : List (NotifKey × List NotificationWithTimestamp))
    (wOk : Nat → Bool) :
    List UserNotification × List UserNotification × Bool :=
  processGo grouped wOk 0

end Persister

namespace Persister

lemma mem_persistEach_attempted (k : NotifKey) :
    ∀ (l : List NotificationWithTimestamp) (wOk : Nat → Bool) (idx : Nat),
      ∀ r ∈ (persistEach k l wOk idx).1, ∃ n ∈ l, r = mkRecord k n := by
  intro l
  induction l with
  | nil => intro wOk idx r hr; simp [persistEach] at hr
  | cons n rest ih =>
      intro wOk idx r hr
      by_cases hv : chronoValidMillis n.timestamp
      · simp only [persistEach, hv, if_true] at hr
        rcases List.mem_cons.mp hr with hr | hr
        · exact ⟨n, by simp, hr⟩
        · obtain ⟨n', hn', he⟩ := ih wOk (idx + 1) r hr
          exact ⟨n', by simp [hn'], he⟩
      · simp [persistEach, hv] at hr

lemma persistEach_written_sublist (k : NotifKey) :
    ∀ (l : List NotificationWithTimestamp) (wOk : Nat → Bool) (idx : Nat),
      (persistEach k l wOk idx).2.1.Sublist (persistEach k l wOk idx).1 := by
  intro l
  induction l with
  | nil => intro wOk idx; simp [persistEach]
  | cons n rest ih =>
      intro wOk idx
      by_cases hv : chronoValidMillis n.timestamp
      · simp only [persistEach, hv, if_true]
        by_cases hw : wOk idx
        · simpa [hw] using (ih wOk (idx + 1)).cons₂ (mkRecord k n)
        · simpa [hw] using (ih wOk (idx + 1)).cons (mkRecord k n)
      · simp [persistEach, hv]

lemma mem_persistEntry_attempted (k : NotifKey)
    (l : List NotificationWithTimestamp) (wOk : Nat → Bool) (idx : Nat) :
    ∀ r ∈ (persistEntry k l wOk idx).1, ∃ n ∈ l, r = mkRecord k n := by
  intro r hr
  unfold persistEntry at hr
  cases hty : k.type with
  | order =>
      rw [hty] at hr
      cases hl : l.getLast? with
      | none => simp [hl] at hr
      | some last =>
          rw [hl] at hr
          by_cases hv : chronoValidMillis last.timestamp
          · simp [hv] at hr
            have hmem : last ∈ l := by
              obtain ⟨ys, rfl⟩ := List.getLast?_eq_some_iff.mp hl
              simp
            exact ⟨last, hmem, hr⟩
          · simp [hv] at hr
  | transaction => rw [hty] at hr; exact mem_persistEach_attempted k l wOk idx r hr
  | account => rw [hty] at hr; exact mem_persistEach_attempted k l wOk idx r hr
  | announcement => rw [hty] at hr; simp at hr
  | campaign => rw [hty] at hr; simp at hr

lemma persistEntry_written_sublist (k : NotifKey)
    (l : List NotificationWithTimestamp) (wOk : Nat → Bool) (idx : Nat) :
    (persistEntry k l wOk idx).2.1.Sublist (persistEntry k l wOk idx).1 := by
  unfold persistEntry
  cases hty : k.type with
  | order =>
      cases hl : l.getLast? with
      | none => simp
      | some last =>
          by_cases hv : chronoValidMillis last.timestamp
          · by_cases hw : wOk idx <;> simp [hv, hw]
          · simp [hv]
  | transaction => exact persistEach_written_sublist k l wOk idx
  | account => exact persistEach_written_sublist k l wOk idx
  | announcement => simp
  | campaign => simp

lemma mem_processGo_attempted :
    ∀ (g : List (NotifKey × List NotificationWithTimestamp))
      (wOk : Nat → Bool) (idx : Nat),
      ∀ r ∈ (processGo g wOk idx).1, ∃ e ∈ g, ∃ n ∈ e.2, r = mkRecord e.1 n := by
  intro g
  induction g with
  | nil => intro wOk idx r hr; simp [processGo] at hr
  | cons e rest ih =>
      obtain ⟨k, l⟩ := e
      intro wOk idx r hr
      unfold processGo at hr
      by_cases hok : (persistEntry k l wOk idx).2.2.2
      · simp only [hok, if_true] at hr
        rcases List.mem_append.mp hr with hr | hr
        · obtain ⟨n, hn, he⟩ := mem_persistEntry_attempted k l wOk idx r hr
          exact ⟨(k, l), by simp, n, hn, he⟩
        · obtain ⟨e', he', n, hn, hrr⟩ := ih wOk _ r hr
          exact ⟨e', by simp [he'], n, hn, hrr⟩
      · simp only [hok, if_false] at hr
        obtain ⟨n, hn, he⟩ := mem_persistEntry_attempted k l wOk idx r hr
        exact ⟨(k, l), by simp, n, hn, he⟩

lemma processGo_written_sublist :
    ∀ (g : List (NotifKey × List NotificationWithTimestamp))
      (wOk : Nat → Bool) (idx : Nat),
      (processGo g wOk idx).2.1.Sublist (processGo g wOk idx).1 := by
  intro g
  induction g with
  | nil => intro wOk idx; simp [processGo]
  | cons e rest ih =>
      obtain ⟨k, l⟩ := e
      intro wOk idx
      unfold processGo
      by_cases hok : (persistEntry k l wOk idx).2.2.2
      · simp only [hok, if_true]
        exact (persistEntry_written_sublist k l wOk idx).append (ih wOk _)
      · simp only [hok, if_false]
        exact persistEntry_written_sublist k l wOk idx

end Persister

lemma NotifType.toStr_inj : ∀ a b : NotifType, a.toStr = b.toStr → a = b := by
  intro a b h
  cases a <;> cases b <;> first
    | rfl
    | exact absurd h (by decide)

/-- A persisted record "belongs to" the group key `k`: its user, its
stringified type and the second of its creation timestamp all match `k`. -/
def recKeyPred (k : NotifKey) (r : UserNotification) : Bool :=
  decide (r.user_id = k.user_id ∧ r.type = k.type.toStr ∧
    r.created_at.tdiv 1000 = k.second)

lemma recKeyPred_mkRecord {k k' : NotifKey} {n : NotificationWithTimestamp}
    (hsec : n.timestamp.tdiv 1000 = k'.second) :
    recKeyPred k (mkRecord k' n) = true ↔ k' = k := by
  unfold recKeyPred mkRecord
  simp only [decide_eq_true_eq]
  constructor
  · rintro ⟨h1, h2, h3⟩
    obtain ⟨u', s', t'⟩ := k'
    obtain ⟨u, s, t⟩ := k
    simp only at h1 h2 h3 hsec ⊢
    have ht := NotifType.toStr_inj _ _ h2
    simp only [NotifKey.mk.injEq]
    refine ⟨h1, ?_, ht⟩
    rw [← hsec, h3]
  · rintro rfl
    exact ⟨rfl, rfl, hsec⟩

namespace Persister

lemma filter_persistEntry_ne {k k' : NotifKey}
    (l : List NotificationWithTimestamp) (wOk : Nat → Bool) (idx : Nat)
    (hsec : ∀ x ∈ l, x.timestamp.tdiv 1000 = k'.second) (hne : k' ≠ k) :
    (persistEntry k' l wOk idx).1.filter (recKeyPred k) = [] := by
  rw [List.filter_eq_nil_iff]
  intro r hr
  obtain ⟨n, hn, rfl⟩ := mem_persistEntry_attempted k' l wOk idx r hr
  intro hcontra
  exact hne ((recKeyPred_mkRecord (hsec n hn)).mp hcontra)

lemma filter_processGo_not_mem {k : NotifKey} :
    ∀ (g : List (NotifKey × List NotificationWithTimestamp))
      (wOk : Nat → Bool) (idx : Nat),
      (∀ e ∈ g, ∀ x ∈ e.2, x.timestamp.tdiv 1000 = e.1.second) →
      k ∉ g.map Prod.fst →
      (processGo g wOk idx).1.filter (recKeyPred k) = [] := by
  intro g
  induction g with
  | nil => intro wOk idx _ _; simp [processGo]
  | cons e rest ih =>
      obtain ⟨k', l'⟩ := e
      intro wOk idx hsec hmem
      have hk' : k' ≠ k := by
        intro h
        exact hmem (by simp [h])
      have hh := filter_persistEntry_ne l' wOk idx
        (fun x hx => hsec (k', l') (by simp) x hx) hk'
      unfold processGo
      by_cases hok : (persistEntry k' l' wOk idx).2.2.2
      · simp only [hok, if_true, List.filter_append, hh, List.nil_append]
        exact ih wOk _ (fun e he x hx => hsec e (by simp [he]) x hx)
          (fun h => hmem (by simp at h ⊢; exact Or.inr h))
      · simpa [hok] using hh

lemma persistEntry_order_attempted {k' : NotifKey}
    (l : List NotificationWithTimestamp) (wOk : Nat → Bool) (idx : Nat)
    (hty : k'.type = .order) :
    (persistEntry k' l wOk idx).1 = [] ∨
      ∃ last, l.getLast? = some last ∧
        (persistEntry k' l wOk idx).1 = [mkRecord k' last] := by
  unfold persistEntry
  rw [hty]
  cases hl : l.getLast? with
  | none => exact Or.inl rfl
  | some last =>
      by_cases hv : chronoValidMillis last.timestamp
      · exact Or.inr ⟨last, rfl, by simp [hv]⟩
      · exact Or.inl (by simp [hv])

lemma filter_processGo_le_one {k : NotifKey} (hty : k.type = .order) :
    ∀ (g : List (NotifKey × List NotificationWithTimestamp))
      (wOk : Nat → Bool) (idx : Nat),
      (∀ e ∈ g, ∀ x ∈ e.2, x.timestamp.tdiv 1000 = e.1.second) →
      (g.map Prod.fst).Nodup →
      ((processGo g wOk idx).1.filter (recKeyPred k)).length ≤ 1 := by
  intro g
  induction g with
  | nil => intro wOk idx _ _; simp [processGo]
  | cons e rest ih =>
      obtain ⟨k', l'⟩ := e
      intro wOk idx hsec hnd
      rw [List.map_cons, List.nodup_cons] at hnd
      have hsec' : ∀ x ∈ l', x.timestamp.tdiv 1000 = k'.second :=
        fun x hx => hsec (k', l') (by simp) x hx
      have hsecr : ∀ e ∈ rest, ∀ x ∈ e.2, x.timestamp.tdiv 1000 = e.1.second :=
        fun e he x hx => hsec e (by simp [he]) x hx
      by_cases hk' : k' = k
      · subst hk'
        have hrest : ∀ (idx2 : Nat),
            (processGo rest wOk idx2).1.filter (recKeyPred k') = [] :=
          fun idx2 => filter_processGo_not_mem rest wOk idx2 hsecr hnd.1
        have hhead : ((persistEntry k' l' wOk idx).1.filter (recKeyPred k')).length ≤ 1 := by
          rcases persistEntry_order_attempted l' wOk idx (hty) with hsh | ⟨last, hl, hsh⟩
          · simp [hsh]
          · rw [hsh]
            exact List.length_filter_le _ _
        unfold processGo
        by_cases hok : (persistEntry k' l' wOk idx).2.2.2
        · simp only [hok, if_true, List.filter_append, hrest, List.append_nil,
            List.length_append]
          simpa using hhead
        · simpa [hok] using hhead
      · have hh := filter_persistEntry_ne l' wOk idx hsec' hk'
        unfold processGo
        by_cases hok : (persistEntry k' l' wOk idx).2.2.2
        · simp only [hok, if_true, List.filter_append, hh, List.nil_append]
          exact ih wOk _ hsecr hnd.2
        · simp [hok, hh]

end Persister

namespace Persister

lemma filter_processGo_exact {k : NotifKey} (hty : k.type = .order) :
    ∀ (g : List (NotifKey × List NotificationWithTimestamp))
      (wOk : Nat → Bool) (idx : Nat) (l : List NotificationWithTimestamp),
      (∀ e ∈ g, ∀ x ∈ e.2, x.timestamp.tdiv 1000 = e.1.second) →
      (g.map Prod.fst).Nodup →
      (k, l) ∈ g → l ≠ [] →
      (processGo g wOk idx).2.2 = true →
      ∃ last, l.getLast? = some last ∧ chronoValidMillis last.timestamp = true ∧
        (processGo g wOk idx).1.filter (recKeyPred k) = [mkRecord k last] := by
  intro g
  induction g with
  | nil => intro wOk idx l _ _ hmem; simp at hmem
  | cons e rest ih =>
      obtain ⟨k0, l0⟩ := e
      intro wOk idx l hsec hnd hmem hlne hoktot
      rw [List.map_cons, List.nodup_cons] at hnd
      have hsec0 : ∀ x ∈ l0, x.timestamp.tdiv 1000 = k0.second :=
        fun x hx => hsec (k0, l0) (by simp) x hx
      have hsecr : ∀ e ∈ rest, ∀ x ∈ e.2, x.timestamp.tdiv 1000 = e.1.second :=
        fun e he x hx => hsec e (by simp [he]) x hx
      by_cases hok : (persistEntry k0 l0 wOk idx).2.2.2
      · have hoktot' : (processGo rest wOk (persistEntry k0 l0 wOk idx).2.2.1).2.2 = true := by
          unfold processGo at hoktot
          simpa [hok] using hoktot
        rcases List.mem_cons.mp hmem with hh | hh
        · have hk0 : k0 = k := by
            have := congrArg Prod.fst hh.symm
            simpa using this
          have hl0 : l0 = l := by
            have := congrArg Prod.snd hh.symm
            simpa using this
          subst hk0
          subst hl0
          cases hl : l0.getLast? with
          | none =>
              exact absurd (List.getLast?_eq_none_iff.mp hl) hlne
          | some last =>
              have hlmem : last ∈ l0 := by
                obtain ⟨ys, rfl⟩ := List.getLast?_eq_some_iff.mp hl
                simp
              by_cases hv : chronoValidMillis last.timestamp
              · refine ⟨last, rfl, hv, ?_⟩
                have hshape : (persistEntry k0 l0 wOk idx).1 = [mkRecord k0 last] := by
                  unfold persistEntry
                  rw [hty]
                  simp [hl, hv]
                have hpred : recKeyPred k0 (mkRecord k0 last) = true :=
                  (recKeyPred_mkRecord (hsec0 last hlmem)).mpr rfl
                have hrest : (processGo rest wOk (persistEntry k0 l0 wOk idx).2.2.1).1.filter
                    (recKeyPred k0) = [] :=
                  filter_processGo_not_mem rest wOk _ hsecr hnd.1
                unfold processGo
                simp [hok, List.filter_append, hshape, hpred, hrest]
              · exfalso
                have : (persistEntry k0 l0 wOk idx).2.2.2 = false := by
                  unfold persistEntry
                  rw [hty]
                  simp [hl, hv]
                rw [this] at hok
                simp at hok
        · have hk0 : k0 ≠ k := by
            intro h
            subst h
            exact hnd.1 (List.mem_map.mpr ⟨(k0, l), hh, rfl⟩)
          obtain ⟨last, h1, h2, h3⟩ :=
            ih wOk (persistEntry k0 l0 wOk idx).2.2.1 l hsecr hnd.2 hh hlne hoktot'
          refine ⟨last, h1, h2, ?_⟩
          have hhead := filter_persistEntry_ne l0 wOk idx hsec0 hk0
          unfold processGo
          simp [hok, List.filter_append, hhead, h3]
      · exfalso
        unfold processGo at hoktot
        simp [hok] at hoktot

lemma persistEach_written_eq (k : NotifKey) :
    ∀ (l : List NotificationWithTimestamp) (wOk : Nat → Bool) (idx : Nat),
      (∀ i, wOk i = true) →
      (persistEach k l wOk idx).2.1 = (persistEach k l wOk idx).1 := by
  intro l
  induction l with
  | nil => intro wOk idx _; simp [persistEach]
  | cons n rest ih =>
      intro wOk idx hw
      by_cases hv : chronoValidMillis n.timestamp
      · simp [persistEach, hv, hw idx, ih wOk (idx + 1) hw]
      · simp [persistEach, hv]

lemma persistEntry_written_eq (k : NotifKey)
    (l : List NotificationWithTimestamp) (wOk : Nat → Bool) (idx : Nat)
    (hw : ∀ i, wOk i = true) :
    (persistEntry k l wOk idx).2.1 = (persistEntry k l wOk idx).1 := by
  unfold persistEntry
  cases k.type with
  | order =>
      cases hl : l.getLast? with
      | none => rfl
      | some last =>
          by_cases hv : chronoValidMillis last.timestamp
          · simp [hv, hw idx]
          · simp [hv]
  | transaction => exact persistEach_written_eq k l wOk idx hw
  | account => exact persistEach_written_eq k l wOk idx hw
  | announcement => rfl
  | campaign => rfl

lemma processGo_written_eq :
    ∀ (g : List (NotifKey × List NotificationWithTimestamp))
      (wOk : Nat → Bool) (idx : Nat),
      (∀ i, wOk i = true) →
      (processGo g wOk idx).2.1 = (processGo g wOk idx).1 := by
  intro g
  induction g with
  | nil => intro wOk idx _; rfl
  | cons e rest ih =>
      obtain ⟨k, l⟩ := e
      intro wOk idx hw
      unfold processGo
      by_cases hok : (persistEntry k l wOk idx).2.2.2
      · simp [hok, persistEntry_written_eq k l wOk idx hw, ih wOk _ hw]
      · simp [hok, persistEntry_written_eq k l wOk idx hw]

lemma persistEach_ok_of_valid (k : NotifKey) :
    ∀ (l : List NotificationWithTimestamp) (wOk : Nat → Bool) (idx : Nat),
      (∀ n ∈ l, chronoValidMillis n.timestamp = true) →
      (persistEach k l wOk idx).2.2.2 = true := by
  intro l
  induction l with
  | nil => intro wOk idx _; simp [persistEach]
  | cons n rest ih =>
      intro wOk idx hv
      have h0 : chronoValidMillis n.timestamp = true := hv n (by simp)
      simp only [persistEach, h0, if_true]
      exact ih wOk (idx + 1) (fun n' hn' => hv n' (by simp [hn']))

lemma persistEntry_ok_of_valid (k : NotifKey)
    (l : List NotificationWithTimestamp) (wOk : Nat → Bool) (idx : Nat)
    (hv : ∀ n ∈ l, chronoValidMillis n.timestamp = true) :
    (persistEntry k l wOk idx).2.2.2 = true := by
  unfold persistEntry
  cases k.type with
  | order =>
      cases hl : l.getLast? with
      | none => rfl
      | some last =>
          have hmem : last ∈ l := by
            obtain ⟨ys, rfl⟩ := List.getLast?_eq_some_iff.mp hl
            simp
          simp [hv last hmem]
  | transaction => exact persistEach_ok_of_valid k l wOk idx hv
  | account => exact persistEach_ok_of_valid k l wOk idx hv
  | announcement => rfl
  | campaign => rfl

lemma processGo_ok_of_valid :
    ∀ (g : List (NotifKey × List NotificationWithTimestamp))
      (wOk : Nat → Bool) (idx : Nat),
      (∀ e ∈ g, ∀ n ∈ e.2, chronoValidMillis n.timestamp = true) →
      (processGo g wOk idx).2.2 = true := by
  intro g
  induction g with
  | nil => intro wOk idx _; rfl
  | cons e rest ih =>
      obtain ⟨k, l⟩ := e
      intro wOk idx hv
      have hok : (persistEntry k l wOk idx).2.2.2 = true :=
        persistEntry_ok_of_valid k l wOk idx (fun n hn => hv (k, l) (by simp) n hn)
      unfold processGo
      simp only [hok, if_true]
      exact ih wOk _ (fun e he n hn => hv e (by simp [he]) n hn)

lemma persistEach_indep (k : NotifKey) :
    ∀ (l : List NotificationWithTimestamp) (wOk wOk' : Nat → Bool) (idx idx' : Nat),
      (persistEach k l wOk idx).1 = (persistEach k l wOk' idx').1 ∧
        (persistEach k l wOk idx).2.2.2 = (persistEach k l wOk' idx').2.2.2 := by
  intro l
  induction l with
  | nil => intro wOk wOk' idx idx'; simp [persistEach]
  | cons n rest ih =>
      intro wOk wOk' idx idx'
      by_cases hv : chronoValidMillis n.timestamp
      · have := ih wOk wOk' (idx + 1) (idx' + 1)
        simp [persistEach, hv, this.1, this.2]
      · simp [persistEach, hv]

lemma persistEntry_indep (k : NotifKey)
    (l : List NotificationWithTimestamp) (wOk wOk' : Nat → Bool) (idx idx' : Nat) :
    (persistEntry k l wOk idx).1 = (persistEntry k l wOk' idx').1 ∧
      (persistEntry k l wOk idx).2.2.2 = (persistEntry k l wOk' idx').2.2.2 := by
  unfold persistEntry
  cases k.type with
  | order =>
      cases hl : l.getLast? with
      | none => simp
      | some last =>
          by_cases hv : chronoValidMillis last.timestamp
          · simp [hv]
          · simp [hv]
  | transaction => exact persistEach_indep k l wOk wOk' idx idx'
  | account => exact persistEach_indep k l wOk wOk' idx idx'
  | announcement => simp
  | campaign => simp

lemma processGo_indep :
    ∀ (g : List (NotifKey × List NotificationWithTimestamp))
      (wOk wOk' : Nat → Bool) (idx idx' : Nat),
      (processGo g wOk idx).1 = (processGo g wOk' idx').1 ∧
        (processGo g wOk idx).2.2 = (processGo g wOk' idx').2.2 := by
  intro g
  induction g with
  | nil => intro wOk wOk' idx idx'; simp [processGo]
  | cons e rest ih =>
      obtain ⟨k, l⟩ := e
      intro wOk wOk' idx idx'
      obtain ⟨ha, hok⟩ := persistEntry_indep k l wOk wOk' idx idx'
      unfold processGo
      by_cases h : (persistEntry k l wOk idx).2.2.2
      · have h' : (persistEntry k l wOk' idx').2.2.2 = true := by rw [← hok]; exact h
        obtain ⟨ha2, hok2⟩ := ih wOk wOk' (persistEntry k l wOk idx).2.2.1
          (persistEntry k l wOk' idx').2.2.1
        simp [h, h', ha, ha2, hok2]
      · have h' : (persistEntry k l wOk' idx').2.2.2 = false := by
          rw [← hok]
          exact Bool.not_eq_true _ ▸ (by simpa using h)
        simp [h, h', ha]

end Persister

/-- `RATE_LIMIT_DURATION` from `consumer_notification_publisher.rs` (2 s). -/
def rateLimitDurationSecs : Nat := 2

/-- `UNSENT_COUNT_DURATION` from `consumer_notification_publisher.rs` (24 h). -/
def unsentCountDurationSecs : Nat := 60 * 60 * 24

/-- The Redis state the publisher keeps per device token: each key is
either absent or holds a value together with its expiry instant in ms
(Redis `SETEX` semantics: the key lives strictly before its expiry). -/
structure TokenKV where
  lastSent : Option (Int × Int)
  unsent : Option (Int × Int)
deriving DecidableEq, Repr

/-- Value of a TTL-guarded key at instant `now`: present while `now` is
strictly before the expiry. -/
def liveVal (e : Option (Int × Int)) (now : Int) : Option Int :=
  match e with
  | some (v, exp) => if now < exp then some v else none
  | none => none

/-- Environment of one per-token dispatch: whether each Redis read and
write succeeds and whether the FCM send (after its retries) succeeds.
`get_cache` returns an error both on an I/O failure and on an absent key;
either way the callers fall back to `None`/`0`. -/
structure DispatchEnv where
  readLastSentOk : Bool
  readUnsentOk : Bool
  readUnsentIncOk : Bool
  sendOk : Bool
  writeLastSentOk : Bool
  writeUnsentOk : Bool
deriving DecidableEq, Repr

/-- `get_unsent_notification_count`: a Redis error (`readOk = false`) or an
absent/expired key yields `None`; callers apply `unwrap_or(0)`. -/
def get_unsent_notification_count (st : TokenKV) (now : Int) (readOk : Bool) :
    Option Int :=
  if readOk then liveVal st.unsent now else none

/-- `can_send_notification`: read `last_sent` (errors collapse to `None`
via `unwrap_or_default`); absent means sendable, else require
`now - last_sent >= RATE_LIMIT_DURATION * 1000`. -/
def can_send_notification (st : TokenKV) (now : Int) (readOk : Bool) : Bool :=
  match (if readOk then liveVal st.lastSent now else none) with
  | some timestamp => decide (now - timestamp ≥ (rateLimitDurationSecs : Int) * 1000)
  | none => true

/-- Digest title used when `unsent_count > 1`. -/
def digestTitle : String := "You have many notifications"

/-- Digest body used when `unsent_count > 1`. -/
def digestBody (unsent_count : Int) : String :=
  "You have " ++ toString unsent_count ++
    " unread notifications. Please check your app."

/-- Observable outcome of one per-token dispatch. -/
inductive DispatchOutcome where
  | sent (title body : String)
  | skipped
  | failed
deriving DecidableEq, Repr

/-- A Redis `SETEX` issued by the dispatch path (value and TTL seconds). -/
inductive KvWrite where
  | setLastSent (value : Int) (ttlSecs : Nat)
  | setUnsentCount (value : Int) (ttlSecs : Nat)
deriving DecidableEq, Repr

/-- Result of one per-token dispatch: the token's Redis state afterwards,
the outcome, and the `SETEX` calls that were issued (a failed `SETEX` is
issued but leaves the state unchanged; the code only warns). -/
structure DispatchResult where
  state : TokenKV
  outcome : DispatchOutcome
  writes : List KvWrite
deriving DecidableEq, Repr

/-- One per-token dispatch of the publisher
(`push_notification_to_firebase` loop body plus `send_job`):
read `unsent_count`, check the rate limit; if throttled, re-read and
increment `unsent_count` (TTL 24 h) and skip; otherwise send the digest
payload when `unsent_count > 1` (else the caller's title/body) and, on
success, `SETEX last_sent = now` (TTL = rate window) and
`SETEX unsent_count = 0` (TTL 24 h); on terminal failure update nothing. -/
def dispatchToken (st : TokenKV) (now : Int) (env : DispatchEnv)
    (title body : String) : DispatchResult :=
  let unsent_count := (get_unsent_notification_count st now env.readUnsentOk).getD 0
  if can_send_notification st now env.readLastSentOk then
    let payload :=
      if unsent_count > 1 then (digestTitle, digestBody unsent_count)
      else (title, body)
    if env.sendOk then
      { state :=
          { lastSent :=
              if env.writeLastSentOk then
                some (now, now + (rateLimitDurationSecs : Int) * 1000)
              else st.lastSent
            unsent :=
              if env.writeUnsentOk then
                some (0, now + (unsentCountDurationSecs : Int) * 1000)
              else st.unsent }
        outcome := .sent payload.1 payload.2
        writes := [.setLastSent now rateLimitDurationSecs,
          .setUnsentCount 0 unsentCountDurationSecs] }
    else { state := st, outcome := .failed, writes := [] }
  else
    let current := (get_unsent_notification_count st now env.readUnsentIncOk).getD 0
    let new_count := current + 1
    { state :=
        { st with unsent :=
            if env.writeUnsentOk then
              some (new_count, now + (unsentCountDurationSecs : Int) * 1000)
            else st.unsent }
      outcome := .skipped
      writes := [.setUnsentCount new_count unsentCountDurationSecs] }

/-- One element of a dispatch trace for a fixed token. -/
structure DispatchInput where
  now : Int
  env : DispatchEnv
  title : String
  body : String
deriving DecidableEq, Repr

/-- Run a sequence of per-token dispatches against the token's Redis
state, collecting each step's instant and outcome. -/
def runDispatches : TokenKV → List DispatchInput →
    TokenKV × List (Int × DispatchOutcome)
  | st, [] => (st, [])
  | st, i :: rest =>
      let r := dispatchToken st i.now i.env i.title i.body
      let out := runDispatches r.state rest
      (out.1, (i.now, r.outcome) :: out.2)

/-- Instants of the successful sends in a trace's outcome log. -/
def sentTimes (l : List (Int × DispatchOutcome)) : List Int :=
  l.filterMap (fun p =>
    match p.2 with
    | .sent _ _ => some p.1
    | _ => none)

/-- Invariant tying the `last_sent` key to the instant of the most recent
successful send (`anchor`): the key is written with TTL = rate window. -/
def lastSentAnchor (st : TokenKV) (anchor : Option Int) : Prop :=
  match anchor with
  | none => st.lastSent = none
  | some t => st.lastSent = some (t, t + (rateLimitDurationSecs : Int) * 1000)

lemma runDispatches_safety_aux :
    ∀ (tr : List DispatchInput) (st : TokenKV) (anchor : Option Int),
      lastSentAnchor st anchor →
      (∀ i ∈ tr, i.env.readLastSentOk = true ∧ i.env.writeLastSentOk = true) →
      List.Pairwise (· ≤ ·) (tr.map (fun i => i.now)) →
      (∀ t, anchor = some t → ∀ i ∈ tr, t ≤ i.now) →
      List.Chain' (fun a b => b - a ≥ (rateLimitDurationSecs : Int) * 1000)
        (anchor.toList ++ sentTimes (runDispatches st tr).2) := by
  intro tr
  induction tr with
  | nil =>
      intro st anchor _ _ _ _
      cases anchor <;> simp [runDispatches, sentTimes]
  | cons i rest ih =>
      intro st anchor hinv henv hpw hbound
      have henv0 := henv i (by simp)
      rw [List.map_cons, List.pairwise_cons] at hpw
      have henvr : ∀ j ∈ rest, j.env.readLastSentOk = true ∧ j.env.writeLastSentOk = true :=
        fun j hj => henv j (by simp [hj])
      by_cases hcs : can_send_notification st i.now i.env.readLastSentOk
      · by_cases hsend : i.env.sendOk
        · -- successful send at i.now
          have hstep : dispatchToken st i.now i.env i.title i.body =
              { state :=
                  { lastSent :=
                      if i.env.writeLastSentOk then
                        some (i.now, i.now + (rateLimitDurationSecs : Int) * 1000)
                      else st.lastSent
                    unsent :=
                      if i.env.writeUnsentOk then
                        some (0, i.now + (unsentCountDurationSecs : Int) * 1000)
                      else st.unsent }
                outcome := .sent
                  (if (get_unsent_notification_count st i.now i.env.readUnsentOk).getD 0 > 1
                   then digestTitle
                   else i.title)
                  (if (get_unsent_notification_count st i.now i.env.readUnsentOk).getD 0 > 1
                   then digestBody ((get_unsent_notification_count st i.now i.env.readUnsentOk).getD 0)
                   else i.body)
                writes := [.setLastSent i.now rateLimitDurationSecs,
                  .setUnsentCount 0 unsentCountDurationSecs] } := by
            unfold dispatchToken
            rw [if_pos hcs, if_pos hsend]
            by_cases hd : (get_unsent_notification_count st i.now i.env.readUnsentOk).getD 0 > 1 <;>
              simp [hd]
          have hinv' : lastSentAnchor (dispatchToken st i.now i.env i.title i.body).state
              (some i.now) := by
            rw [hstep]
            simp [lastSentAnchor, henv0.2]
          have hboundr : ∀ t, (some i.now : Option Int) = some t → ∀ j ∈ rest, t ≤ j.now := by
            intro t ht j hj
            injection ht with ht
            subst ht
            exact hpw.1 j.now (List.mem_map.mpr ⟨j, hj, rfl⟩)
          have hrest := ih (dispatchToken st i.now i.env i.title i.body).state
            (some i.now) hinv' henvr hpw.2 hboundr
          simp only [Option.toList] at hrest
          have hout : sentTimes (runDispatches st (i :: rest)).2 =
              i.now :: sentTimes
                (runDispatches (dispatchToken st i.now i.env i.title i.body).state rest).2 := by
            show sentTimes ((i.now, (dispatchToken st i.now i.env i.title i.body).outcome) ::
              (runDispatches (dispatchToken st i.now i.env i.title i.body).state rest).2) = _
            rw [hstep]
            simp [sentTimes, List.filterMap_cons]
          rw [hout]
          cases hanch : anchor with
          | none => simpa using hrest
          | some t =>
              simp only [Option.toList, List.singleton_append, List.cons_append,
                List.nil_append] at hrest ⊢
              rw [List.chain'_cons]
              refine ⟨?_, hrest⟩
              -- the send was allowed, so i.now - t ≥ window
              rw [hanch] at hinv
              unfold can_send_notification at hcs
              rw [henv0.1] at hcs
              unfold lastSentAnchor at hinv
              rw [hinv] at hcs
              unfold liveVal at hcs
              by_cases hlive : i.now < t + (rateLimitDurationSecs : Int) * 1000
              · simp [hlive] at hcs
                exact hcs
              · omega
        · -- terminal send failure: state unchanged, nothing sent
          have hstep : dispatchToken st i.now i.env i.title i.body =
              { state := st, outcome := .failed, writes := [] } := by
            unfold dispatchToken
            rw [if_pos hcs]
            simp [hsend]
          have hboundr : ∀ t, anchor = some t → ∀ j ∈ rest, t ≤ j.now :=
            fun t ht j hj => hbound t ht j (by simp [hj])
          have hrest := ih (dispatchToken st i.now i.env i.title i.body).state anchor
            (by rw [hstep]; exact hinv) henvr hpw.2 hboundr
          have hout : sentTimes (runDispatches st (i :: rest)).2 =
              sentTimes
                (runDispatches (dispatchToken st i.now i.env i.title i.body).state rest).2 := by
            show sentTimes ((i.now, (dispatchToken st i.now i.env i.title i.body).outcome) ::
              (runDispatches (dispatchToken st i.now i.env i.title i.body).state rest).2) = _
            rw [hstep]
            simp [sentTimes, List.filterMap_cons]
          rw [hout]
          exact hrest
      · -- throttled: only unsent_count changes, nothing sent
        have hstep : (dispatchToken st i.now i.env i.title i.body).state.lastSent = st.lastSent ∧
            (dispatchToken st i.now i.env i.title i.body).outcome = .skipped := by
          unfold dispatchToken
          rw [if_neg hcs]
          exact ⟨rfl, rfl⟩
        have hboundr : ∀ t, anchor = some t → ∀ j ∈ rest, t ≤ j.now :=
          fun t ht j hj => hbound t ht j (by simp [hj])
        have hinv' : lastSentAnchor (dispatchToken st i.now i.env i.title i.body).state anchor := by
          unfold lastSentAnchor at hinv ⊢
          cases anchor with
          | none => rw [hstep.1]; exact hinv
          | some t => rw [hstep.1]; exact hinv
        have hrest := ih (dispatchToken st i.now i.env i.title i.body).state anchor
          hinv' henvr hpw.2 hboundr
        have hout : sentTimes (runDispatches st (i :: rest)).2 =
            sentTimes
              (runDispatches (dispatchToken st i.now i.env i.title i.body).state rest).2 := by
          show sentTimes ((i.now, (dispatchToken st i.now i.env i.title i.body).outcome) ::
            (runDispatches (dispatchToken st i.now i.env i.title i.body).state rest).2) = _
          rw [hstep.2]
          simp [sentTimes, List.filterMap_cons]
        rw [hout]
        exact hrest

/-- `UserFcmToken` from `src/models/user_fcm_token.rs` (fields used by the
token cache; timestamps and platform are irrelevant here). -/
structure UserFcmToken where
  user_id : String
  device_id : String
  token : String
  status : String
deriving DecidableEq, Repr

/-- `UserFcmTokenStatus::Active.to_string()`. -/
def activeStatus : String := "ACTIVE"

/-- Result of one `get_user_fcm_tokens` call: the returned tokens, the
in-process cache afterwards, and whether the document store was queried. -/
structure FcmFetchResult where
  tokens : List String
  cache : List (String × List String)
  queried : Bool
deriving DecidableEq, Repr

/-- Body of the scan over the rows returned by the store on a cache miss:
an `ACTIVE` row pushes its token into the user's cache entry and into the
result vector; any other row is ignored. -/
def fcmScanStep (user_id : String)
    (p : List (String × List String) × List String) (t : UserFcmToken) :
    List (String × List String) × List String :=
  if t.status = activeStatus then (assocPush p.1 user_id t.token, p.2 ++ [t.token])
  else p

/-- `get_user_fcm_tokens` from `src/loading_fcm_token.rs`: a cache hit
returns the stored (cloned) vector; a miss queries the store filtered by
`userId`, retains `ACTIVE` rows, pushes each retained token into the cache
entry and the result, and returns the result. -/
def get_user_fcm_tokens (cache : List (String × List String))
    (store : List UserFcmToken) (user_id : String) : FcmFetchResult :=
  match lookupAssoc cache user_id with
  | some tokens => { tokens := tokens, cache := cache, queried := false }
  | none =>
      let rows := store.filter (fun t => decide (t.user_id = user_id))
      let out := rows.foldl (fcmScanStep user_id) (cache, [])
      { tokens := out.2, cache := out.1, queried := true }

lemma fcmScan_snd (user_id : String) :
    ∀ (rows : List UserFcmToken) (c : List (String × List String)) (acc : List String),
      (rows.foldl (fcmScanStep user_id) (c, acc)).2 =
        acc ++ (rows.filter (fun t => t.status = activeStatus)).map (fun t => t.token) := by
  intro rows
  induction rows with
  | nil => intro c acc; simp
  | cons t rest ih =>
      intro c acc
      by_cases ha : t.status = activeStatus
      · simp [fcmScanStep, ha, List.filter_cons, ih]
      · simp [fcmScanStep, ha, List.filter_cons, ih]

lemma fcmScan_fst_of_no_active (user_id : String) :
    ∀ (rows : List UserFcmToken) (c : List (String × List String)) (acc : List String),
      (∀ t ∈ rows, ¬ t.status = activeStatus) →
      (rows.foldl (fcmScanStep user_id) (c, acc)).1 = c := by
  intro rows
  induction rows with
  | nil => intro c acc _; rfl
  | cons t rest ih =>
      intro c acc hna
      have ht : ¬ t.status = activeStatus := hna t (by simp)
      simp only [List.foldl_cons, fcmScanStep, ht, if_false]
      exact ih c acc (fun t' ht' => hna t' (by simp [ht']))

/-- C9: for every input list of events, the map returned by
`group_by_user_id` has distinct keys, every value list is non-empty, within
each value list the timestamps are non-decreasing, events with equal
timestamps keep their relative input order (the subsequence at any fixed
timestamp equals the input-order contributions, since the sort is stable),
and every element's timestamp integer-divided (truncating, as Rust `/`)
by 1000 equals the second component of its key. -/
theorem C9_group_invariants (msgs : List NotifMessage)
    (prefs : String → Option NotificationPreferences) (time : String) :
    ((group_by_user_id msgs prefs time).map Prod.fst).Nodup ∧
    (∀ e ∈ group_by_user_id msgs prefs time, e.2 ≠ []) ∧
    (∀ e ∈ group_by_user_id msgs prefs time,
      e.2.Pairwise (fun a b => a.timestamp ≤ b.timestamp)) ∧
    (∀ e ∈ group_by_user_id msgs prefs time, ∀ c : Int,
      e.2.filter (fun n => decide (n.timestamp = c)) =
        (msgs.filter (fun m => decide (m.timestamp = c))).filterMap
          (entryFor prefs time e.1)) ∧
    (∀ e ∈ group_by_user_id msgs prefs time, ∀ x ∈ e.2,
      x.timestamp.tdiv 1000 = e.1.second) := by
  have hnd := group_by_user_id_nodup_keys msgs prefs time
  have hsorted : (msgs.mergeSort notifLe).Pairwise (fun a b => notifLe a b = true) :=
    List.sorted_mergeSort notifLe_trans notifLe_total msgs
  refine ⟨hnd, group_by_user_id_nonempty msgs prefs time, ?_, ?_,
    group_by_user_id_second msgs prefs time⟩
  · intro e he
    obtain ⟨k, l⟩ := e
    have hlk := lookupAssoc_eq_of_mem hnd he
    have hval := group_by_user_id_values msgs prefs time k l hlk
    rw [hval]
    exact pairwise_ts_filterMap hsorted
  · intro e he c
    obtain ⟨k, l⟩ := e
    have hlk := lookupAssoc_eq_of_mem hnd he
    have hval := group_by_user_id_values msgs prefs time k l hlk
    rw [hval]
    rw [filter_ts_filterMap (entryFor prefs time k) (entryFor_timestamp) c]
    rw [filter_timestamp_mergeSort]

/-- Inputs for the C9 witness: a single order event. -/
def w9msg : NotifMessage :=
  { user_id := "u1"
    notif_type := .order
    timestamp := 1700000000123
    metadata := .order { order_id := 42, status := "NEW" } }

/-- Preference map for the grouping witnesses: no record for any user. -/
def wPrefsNone : String → Option NotificationPreferences := fun _ => none

/-- Wall-clock string for the grouping witnesses. -/
def wTime : String := "2024-01-01 00:00:00"

/-- The single entry produced by the C9 witness batch. -/
def w9entry : NotifKey × List NotificationWithTimestamp :=
  ({ user_id := "u1", second := 1700000000, type := .order },
    [{ message := "Order 42 placed successfully.", timestamp := 1700000000123 }])

/-- The single rendered notification of the C9 witness batch. -/
def w9n : NotificationWithTimestamp :=
  { message := "Order 42 placed successfully.", timestamp := 1700000000123 }

/-- Witness for C9: the invariants evaluated on a concrete one-event batch. -/
theorem C9_witness :
    w9entry ∈ group_by_user_id [w9msg] wPrefsNone wTime ∧ w9entry.2 ≠ [] ∧
      w9n.timestamp.tdiv 1000 = w9entry.1.second := by
  have hms : [w9msg].mergeSort notifLe = [w9msg] := by
    simp
  have hg : group_by_user_id [w9msg] wPrefsNone wTime = [w9entry] := by
    unfold group_by_user_id
    rw [hms]
    decide
  have h := C9_group_invariants [w9msg] wPrefsNone wTime
  have hmem : w9entry ∈ group_by_user_id [w9msg] wPrefsNone wTime := by
    rw [hg]; simp
  exact ⟨hmem, h.2.1 _ hmem, h.2.2.2.2 _ hmem w9n (by decide)⟩

/-- Transaction metadata for the C3 counterexample. -/
def c3data : TransactionNotifData :=
  { id := 1, user_id := "u1", asset := "USDT", network_id := "n1",
    tx_hash := "0xabc", type := .add, amount := "5", status := "COMPLETED" }

/-- A transaction event for the C3 counterexample. -/
def c3msg : NotifMessage :=
  { user_id := "u1", notif_type := .transaction, timestamp := 1700000000123,
    metadata := .transaction c3data }

/-- A second formatted wall-clock instant, one second later. -/
def c3time2 : String := "2024-01-01 00:00:01"

/-- Counterexample to C3: `construct_message` embeds the formatted current
wall clock (`chrono::Utc::now()`) into Transaction (and Account) messages,
so two invocations for the same event at different instants return
different text, and two runs of the grouping function at different
instants return different maps. -/
theorem C3_counterexample :
    (NotifMetadata.transaction c3data).construct_message wTime =
      .ok ("You have successfully deposit 5 USDT at " ++ wTime) ∧
    (NotifMetadata.transaction c3data).construct_message c3time2 =
      .ok ("You have successfully deposit 5 USDT at " ++ c3time2) ∧
    ("You have successfully deposit 5 USDT at " ++ wTime) ≠
      ("You have successfully deposit 5 USDT at " ++ c3time2) ∧
    group_by_user_id [c3msg] wPrefsNone wTime ≠
      group_by_user_id [c3msg] wPrefsNone c3time2 := by
  refine ⟨rfl, rfl, by decide, ?_⟩
  have hms : [c3msg].mergeSort notifLe = [c3msg] := by simp
  unfold group_by_user_id
  rw [hms]
  decide

/-- C3 as amended: the pipeline is deterministic given the formatted
wall-clock instant `time` (which in the code is read from
`chrono::Utc::now()` inside the renderer): Order rendering never reads the
clock, and for a batch whose events all carry Order metadata the whole
grouping function is independent of the instant; Transaction and Account
rendering embed the instant, so full determinism holds only at a fixed
instant. -/
theorem C3_determinism_amended :
    (∀ (d : OrderNotifData) (t1 t2 : String),
      (NotifMetadata.order d).construct_message t1 =
        (NotifMetadata.order d).construct_message t2) ∧
    (∀ (msgs : List NotifMessage) (prefs : String → Option NotificationPreferences)
      (t1 t2 : String),
      (∀ m ∈ msgs, ∃ d, m.metadata = NotifMetadata.order d) →
      group_by_user_id msgs prefs t1 = group_by_user_id msgs prefs t2) := by
  constructor
  · intro d t1 t2
    rfl
  · intro msgs prefs t1 t2 hord
    unfold group_by_user_id
    apply List.foldl_ext
    intro acc m hm
    obtain ⟨d, hd⟩ := hord m (List.mem_mergeSort.mp hm)
    unfold group_step
    rw [hd]
    rfl

/-- Preference map for the C4 witness and theorem instances: user `u1` has
a record with the transaction flag off, every other user has no record. -/
def c4prefs : String → Option NotificationPreferences := fun u =>
  if u = "u1" then
    some { announcement := true, account := true, campaign := true, transaction := false }
  else none

/-- C4: if a user's preference flag for type `t` is false at read time, the
grouping output has no entry whose key carries that user and type (so no
rendered notification under any `(u, *, t)` key); the `Order` type is gated
by the `transaction` flag; and a user with no preference record gets the
all-true defaults, so every event of theirs that renders successfully
appears in the output under its key. -/
theorem C4_preference_filtering (msgs : List NotifMessage)
    (prefs : String → Option NotificationPreferences) (time : String) :
    (∀ (u : String) (p : NotificationPreferences) (t : NotifType),
      prefs u = some p → p.contains t = false →
      ∀ e ∈ group_by_user_id msgs prefs time,
        ¬ (e.1.user_id = u ∧ e.1.type = t)) ∧
    (∀ p : NotificationPreferences, p.contains .order = p.transaction) ∧
    (∀ u, prefs u = none → ∀ m ∈ msgs, m.user_id = u →
      ∀ msg, m.metadata.construct_message time = .ok msg →
      ∃ l, lookupAssoc (group_by_user_id msgs prefs time) (keyOf m) = some l ∧
        { message := msg, timestamp := m.timestamp } ∈ l) := by
  refine ⟨?_, fun p => rfl, ?_⟩
  · intro u p t hu hp e he hcontra
    obtain ⟨k, l⟩ := e
    have hnd := group_by_user_id_nodup_keys msgs prefs time
    have hlk := lookupAssoc_eq_of_mem hnd he
    have hval := group_by_user_id_values msgs prefs time k l hlk
    have hne := group_by_user_id_nonempty msgs prefs time (k, l) he
    obtain ⟨x, hx⟩ := List.exists_mem_of_ne_nil l hne
    rw [hval] at hx
    obtain ⟨m, _, hef⟩ := List.mem_filterMap.mp hx
    obtain ⟨hkey, _, _, hcont⟩ := entryFor_some hef
    obtain ⟨h1, h2⟩ := hcontra
    have hmu : m.user_id = u := by
      rw [← h1, ← hkey]
      rfl
    have hmt : m.notif_type = t := by
      rw [← h2, ← hkey]
      rfl
    rw [hmu, hmt, hu] at hcont
    simp only [Option.getD_some] at hcont
    rw [hp] at hcont
    simp at hcont
  · intro u hu m hm hmu msg hcm
    have hdef : ((prefs m.user_id).getD defaultPreferences).contains m.notif_type = true := by
      rw [hmu, hu]
      cases m.notif_type <;> rfl
    have hef : entryFor prefs time (keyOf m) m =
        some { message := msg, timestamp := m.timestamp } := by
      unfold entryFor
      rw [if_pos rfl, hcm]
      simp [hdef]
    have hmem : ({ message := msg, timestamp := m.timestamp } :
        NotificationWithTimestamp) ∈
        (msgs.mergeSort notifLe).filterMap (entryFor prefs time (keyOf m)) :=
      List.mem_filterMap.mpr ⟨m, List.mem_mergeSort.mpr hm, hef⟩
    refine ⟨(msgs.mergeSort notifLe).filterMap (entryFor prefs time (keyOf m)), ?_, hmem⟩
    rw [lookup_group_by_user_id]
    unfold combineGroup
    have : ¬ ((msgs.mergeSort notifLe).filterMap (entryFor prefs time (keyOf m))).isEmpty := by
      rw [List.isEmpty_iff]
      intro hnil
      rw [hnil] at hmem
      simp at hmem
    simp [this]

/-- User with no preference record, for the C4 witness. -/
def c4u2 : String := "u2"

/-- Account event by a user with no preference record. -/
def c4msgAcct : NotifMessage :=
  { user_id := "u2", notif_type := .account, timestamp := 1700000001500,
    metadata := .account
      { user_id := "u2", activity_type := .mfa .enabled, action_status := .success } }

/-- The message the account event renders to at the witness instant. -/
def c4acctMsg : String := "Two-factor authentication was enabled on 2024-01-01 00:00:00."

/-- The value list the witness batch stores under the event's key. -/
def c4l : List NotificationWithTimestamp :=
  [{ message := c4acctMsg, timestamp := 1700000001500 }]

/-- Witness for C4: a user with no preference record gets the defaults and
their (successfully rendered) account event appears in the output. -/
theorem C4_witness :
    c4prefs c4u2 = none ∧
    ({ message := c4acctMsg, timestamp := 1700000001500 } :
      NotificationWithTimestamp) ∈ c4l := by
  have h := (C4_preference_filtering [c4msgAcct] c4prefs wTime).2.2 c4u2 rfl
    c4msgAcct (by simp) rfl c4acctMsg rfl
  obtain ⟨l, hl, hmem⟩ := h
  have hms : [c4msgAcct].mergeSort notifLe = [c4msgAcct] := by simp
  have hg : lookupAssoc (group_by_user_id [c4msgAcct] c4prefs wTime)
      (keyOf c4msgAcct) = some c4l := by
    unfold group_by_user_id
    rw [hms]
    decide
  rw [hg] at hl
  injection hl with hl
  subst hl
  exact ⟨rfl, hmem⟩

namespace Persister

lemma mem_persistEntry_attempted_full (k : NotifKey)
    (l : List NotificationWithTimestamp) (wOk : Nat → Bool) (idx : Nat) :
    ∀ r ∈ (persistEntry k l wOk idx).1, ∃ n ∈ l, r = mkRecord k n ∧
      (k.type = .order → l.getLast? = some n) := by
  intro r hr
  cases hty : k.type with
  | order =>
      rcases persistEntry_order_attempted l wOk idx hty with hsh | ⟨last, hl, hsh⟩
      · rw [hsh] at hr
        simp at hr
      · rw [hsh] at hr
        simp at hr
        have hmem : last ∈ l := by
          obtain ⟨ys, rfl⟩ := List.getLast?_eq_some_iff.mp hl
          simp
        exact ⟨last, hmem, hr, fun _ => hl⟩
  | transaction =>
      obtain ⟨n, hn, he⟩ := mem_persistEntry_attempted k l wOk idx r hr
      exact ⟨n, hn, he, fun hcontra => absurd hcontra (by decide)⟩
  | account =>
      obtain ⟨n, hn, he⟩ := mem_persistEntry_attempted k l wOk idx r hr
      exact ⟨n, hn, he, fun hcontra => absurd hcontra (by decide)⟩
  | announcement =>
      unfold persistEntry at hr
      rw [hty] at hr
      simp at hr
  | campaign =>
      unfold persistEntry at hr
      rw [hty] at hr
      simp at hr

lemma mem_processGo_attempted_full :
    ∀ (g : List (NotifKey × List NotificationWithTimestamp))
      (wOk : Nat → Bool) (idx : Nat),
      ∀ r ∈ (processGo g wOk idx).1, ∃ e ∈ g, ∃ n ∈ e.2, r = mkRecord e.1 n ∧
        (e.1.type = .order → e.2.getLast? = some n) := by
  intro g
  induction g with
  | nil => intro wOk idx r hr; simp [processGo] at hr
  | cons e rest ih =>
      obtain ⟨k, l⟩ := e
      intro wOk idx r hr
      unfold processGo at hr
      by_cases hok : (persistEntry k l wOk idx).2.2.2
      · simp only [hok, if_true] at hr
        rcases List.mem_append.mp hr with hr | hr
        · obtain ⟨n, hn, he, hlast⟩ := mem_persistEntry_attempted_full k l wOk idx r hr
          exact ⟨(k, l), by simp, n, hn, he, hlast⟩
        · obtain ⟨e', he', n, hn, hrr, hlast⟩ := ih wOk _ r hr
          exact ⟨e', by simp [he'], n, hn, hrr, hlast⟩
      · simp only [hok, if_false] at hr
        obtain ⟨n, hn, he, hlast⟩ := mem_persistEntry_attempted_full k l wOk idx r hr
        exact ⟨(k, l), by simp, n, hn, he, hlast⟩

end Persister

/-- C5: every record the persister writes (for any oracle of database
outcomes, hence in particular every successfully written record) has
`created_at = updated_at`, `is_read = false`, and both timestamps equal to
the source event's timestamp — for an `Order` key the one of the group's
last element — never a wall clock (the construction does not read one). -/
theorem C5_timestamp_fidelity
    (grouped : List (NotifKey × List NotificationWithTimestamp))
    (wOk : Nat → Bool) :
    ∀ r ∈ (Persister.process grouped wOk).2.1,
      r.created_at = r.updated_at ∧ r.is_read = false ∧
      ∃ e ∈ grouped, ∃ n ∈ e.2,
        r.created_at = n.timestamp ∧ r.message = n.message ∧
        (e.1.type = .order → e.2.getLast? = some n) := by
  intro r hr
  have hr' : r ∈ (Persister.process grouped wOk).1 :=
    (Persister.processGo_written_sublist grouped wOk 0).subset hr
  obtain ⟨e, he, n, hn, hrec, hlast⟩ :=
    Persister.mem_processGo_attempted_full grouped wOk 0 r hr'
  subst hrec
  exact ⟨rfl, rfl, e, he, n, hn, rfl, rfl, hlast⟩

/-- Concrete grouped input for the C5 and C7 witnesses: one account entry. -/
def w5grouped : List (NotifKey × List NotificationWithTimestamp) :=
  [({ user_id := "u1", second := 1700000000, type := .account },
    [{ message := "msg-a", timestamp := 1700000000123 }])]

/-- The record the persister writes for `w5grouped`. -/
def w5rec : UserNotification :=
  { type := "ACCOUNT", user_id := "u1", title := "Account Notification",
    message := "msg-a", created_at := 1700000000123,
    updated_at := 1700000000123, is_read := false }

/-- Witness for C5: evaluated on a concrete grouped batch with all writes
succeeding, the written record satisfies the fidelity properties. -/
theorem C5_witness :
    w5rec ∈ (Persister.process w5grouped (fun _ => true)).2.1 ∧
    w5rec.created_at = w5rec.updated_at ∧ w5rec.is_read = false := by
  have hmem : w5rec ∈ (Persister.process w5grouped (fun _ => true)).2.1 := by
    decide
  have h := C5_timestamp_fidelity w5grouped (fun _ => true) w5rec hmem
  exact ⟨hmem, h.1, h.2.1⟩

/-- An order group whose only event has timestamp `i64::MIN`, far outside
chrono's representable range. -/
def c7entry : NotifKey × List NotificationWithTimestamp :=
  ({ user_id := "u1", second := -9223372036854776, type := .order },
    [{ message := "m", timestamp := -9223372036854775808 }])

/-- Counterexample to C7: with every database write succeeding (so the only
anomaly is the batch content itself), a grouped batch containing one
out-of-chrono-range timestamp makes the persister's `process` return an
error (the `?` on `DateTime::from_timestamp_millis` aborts the batch), so
the offset would not be committed even though the bus interaction and all
writes were fine. -/
theorem C7_counterexample :
    (Persister.process [c7entry] (fun _ => true)).2.2 = false := by
  decide

/-- C7 as amended: an individual record-write failure only skips that
record — for any write oracle the batch processing still returns success
and attempts the same records — provided every grouped timestamp is within
chrono's representable `DateTime` range; an out-of-range timestamp instead
aborts the batch with an error. -/
theorem C7_batch_success_amended
    (g : List (NotifKey × List NotificationWithTimestamp)) (wOk : Nat → Bool)
    (hv : ∀ e ∈ g, ∀ n ∈ e.2, chronoValidMillis n.timestamp = true) :
    (Persister.process g wOk).2.2 = true ∧
    (Persister.process g wOk).1 = (Persister.process g (fun _ => true)).1 :=
  ⟨Persister.processGo_ok_of_valid g wOk 0 hv,
    (Persister.processGo_indep g wOk (fun _ => true) 0 0).1⟩

/-- Witness for the amended C7: a concrete batch whose timestamp is valid
commits even when every individual write fails. -/
theorem C7_witness :
    chronoValidMillis 1700000000123 = true ∧
    (Persister.process w5grouped (fun _ => false)).2.2 = true :=
  ⟨by decide, (C7_batch_success_amended w5grouped (fun _ => false) (by decide)).1⟩

/-- C1: for every input batch and every group key of type `Order`, the
persister never produces two records for that key (whatever the database
does, at most one written record matches the key), and whenever the key is
present in the grouped map, the batch run returns success and the writes
succeed, exactly one record is written for it: the record built from the
last element of the (stably sorted) group list, whose timestamp is maximal
in the group. -/
theorem C1_order_coalescing (msgs : List NotifMessage)
    (prefs : String → Option NotificationPreferences) (time : String)
    (wOk : Nat → Bool) (k : NotifKey) (hty : k.type = .order) :
    (((Persister.process (group_by_user_id msgs prefs time) wOk).2.1.filter
        (recKeyPred k)).length ≤ 1) ∧
    (∀ l, lookupAssoc (group_by_user_id msgs prefs time) k = some l →
      (Persister.process (group_by_user_id msgs prefs time) wOk).2.2 = true →
      (∀ i, wOk i = true) →
      ∃ last, l.getLast? = some last ∧
        (∀ n ∈ l, n.timestamp ≤ last.timestamp) ∧
        (Persister.process (group_by_user_id msgs prefs time) wOk).2.1.filter
          (recKeyPred k) = [mkRecord k last]) := by
  have hsec := group_by_user_id_second msgs prefs time
  have hnd := group_by_user_id_nodup_keys msgs prefs time
  constructor
  · have hsub := (Persister.processGo_written_sublist
      (group_by_user_id msgs prefs time) wOk 0).filter (recKeyPred k)
    exact le_trans hsub.length_le
      (Persister.filter_processGo_le_one hty _ wOk 0 hsec hnd)
  · intro l hlk hok hw
    have hmem := mem_of_lookupAssoc hlk
    have hlne : l ≠ [] := group_by_user_id_nonempty msgs prefs time (k, l) hmem
    obtain ⟨last, h1, h2, h3⟩ :=
      Persister.filter_processGo_exact hty _ wOk 0 l hsec hnd hmem hlne hok
    refine ⟨last, h1, ?_, ?_⟩
    · have hval := group_by_user_id_values msgs prefs time k l hlk
      have hpw : l.Pairwise (fun a b => a.timestamp ≤ b.timestamp) := by
        rw [hval]
        exact pairwise_ts_filterMap
          (List.sorted_mergeSort notifLe_trans notifLe_total msgs)
      exact pairwise_getLast_max hpw h1
    · unfold Persister.process
      rw [Persister.processGo_written_eq _ wOk 0 hw]
      exact h3

/-- First order event of the C1 witness batch (status NEW, earlier). -/
def c1m1 : NotifMessage :=
  { user_id := "u1", notif_type := .order, timestamp := 1700000000100,
    metadata := .order { order_id := 42, status := "NEW" } }

/-- Second order event of the C1 witness batch (status FILLED, later). -/
def c1m2 : NotifMessage :=
  { user_id := "u1", notif_type := .order, timestamp := 1700000000900,
    metadata := .order { order_id := 42, status := "FILLED" } }

/-- The single group key of the C1 witness batch. -/
def c1k : NotifKey := { user_id := "u1", second := 1700000000, type := .order }

/-- The value list grouped under `c1k`. -/
def c1l : List NotificationWithTimestamp :=
  [{ message := "Order 42 placed successfully.", timestamp := 1700000000100 },
    { message := "Order 42 matched.", timestamp := 1700000000900 }]

/-- The latest-timestamp element of the witness group. -/
def c1last : NotificationWithTimestamp :=
  { message := "Order 42 matched.", timestamp := 1700000000900 }

/-- Witness for C1: two coalesced order events in one second produce
exactly one written record carrying the last event's message. -/
theorem C1_witness :
    (Persister.process (group_by_user_id [c1m1, c1m2] wPrefsNone wTime)
      (fun _ => true)).2.1.filter (recKeyPred c1k) = [mkRecord c1k c1last] := by
  have hms : [c1m1, c1m2].mergeSort notifLe = [c1m1, c1m2] := by
    simp [List.mergeSort, notifLe, c1m1, c1m2]
  have hg : group_by_user_id [c1m1, c1m2] wPrefsNone wTime = [(c1k, c1l)] := by
    unfold group_by_user_id
    rw [hms]
    decide
  obtain ⟨last, h1, h2, h3⟩ :=
    (C1_order_coalescing [c1m1, c1m2] wPrefsNone wTime (fun _ => true) c1k rfl).2
      c1l (by rw [hg]; decide) (by rw [hg]; decide) (fun i => rfl)
  have hc : c1l.getLast? = some c1last := by decide
  rw [hc] at h1
  injection h1 with h1
  rw [← h1] at h3
  exact h3

/-- Dispatch environment in which every Redis operation and the FCM send
succeed. -/
def allOkEnv : DispatchEnv :=
  { readLastSentOk := true, readUnsentOk := true, readUnsentIncOk := true,
    sendOk := true, writeLastSentOk := true, writeUnsentOk := true }

/-- Caller-supplied title used in the dispatch examples. -/
def cTitle : String := "Order Notification"

/-- Caller-supplied body used in the dispatch examples. -/
def cBody : String := "Order 42 matched."

/-- Token state whose `last_sent` key is live with value 0 (expires at
2000 ms). -/
def c2stActive : TokenKV := { lastSent := some (0, 2000), unsent := none }

/-- Environment whose `last_sent` read fails (everything else succeeds). -/
def c2envReadErr : DispatchEnv :=
  { allOkEnv with readLastSentOk := false }

/-- Environment whose `last_sent` update after a successful send fails
(the code only warns). -/
def c2envNoWrite : DispatchEnv :=
  { allOkEnv with writeLastSentOk := false }

/-- Empty initial token state. -/
def c2init : TokenKV := { lastSent := none, unsent := none }

/-- Trace for the C2 counterexample: a successful send at 0 ms whose
`last_sent` update fails, then another dispatch at 1000 ms. -/
def c2trace : List DispatchInput :=
  [{ now := 0, env := c2envNoWrite, title := cTitle, body := cBody },
    { now := 1000, env := allOkEnv, title := cTitle, body := cBody }]

/-- Counterexample to C2: (a) with `last_sent = 0` still live at
`now = 1000` (inside the 2 s window) but the Redis read failing, the
dispatch proceeds and sends — so a push dispatch can occur while
`now - last_sent < rate_window`; and (b) when the `last_sent` update after
a successful send fails (which the code merely warns about), two
successful sends occur 1000 ms < 2000 ms apart. -/
theorem C2_counterexample :
    (dispatchToken c2stActive 1000 c2envReadErr cTitle cBody).outcome =
      .sent cTitle cBody ∧
    ((1000 : Int) - 0 < (rateLimitDurationSecs : Int) * 1000) ∧
    sentTimes (runDispatches c2init c2trace).2 = [0, 1000] := by
  refine ⟨by decide, by decide, by decide⟩

/-- C2 as amended: when the `last_sent` read succeeds and the key is live
with `now - last_sent < rate_window`, no send is attempted: the outcome is
a skip, the only Redis write is the `unsent_count` increment with TTL 24 h,
and `last_sent` is untouched; and for every dispatch trace from an empty
token state with a non-decreasing clock in which the `last_sent` reads and
updates succeed, no two successful sends occur within the rate window.
(The counterexample shows both provisos are necessary: Redis failures
fail open.) -/
theorem C2_rate_limit_amended :
    (∀ (st : TokenKV) (now t : Int) (env : DispatchEnv) (title body : String),
      env.readLastSentOk = true →
      st.lastSent = some (t, t + (rateLimitDurationSecs : Int) * 1000) →
      now - t < (rateLimitDurationSecs : Int) * 1000 →
      (dispatchToken st now env title body).outcome = .skipped ∧
      (dispatchToken st now env title body).writes =
        [.setUnsentCount
          ((get_unsent_notification_count st now env.readUnsentIncOk).getD 0 + 1)
          unsentCountDurationSecs] ∧
      (dispatchToken st now env title body).state.lastSent = st.lastSent) ∧
    (∀ (init : TokenKV) (tr : List DispatchInput),
      init.lastSent = none →
      (∀ i ∈ tr, i.env.readLastSentOk = true ∧ i.env.writeLastSentOk = true) →
      List.Chain' (· ≤ ·) (tr.map (fun i => i.now)) →
      List.Chain' (fun a b => b - a ≥ (rateLimitDurationSecs : Int) * 1000)
        (sentTimes (runDispatches init tr).2)) := by
  constructor
  · intro st now t env title body hread hst hwin
    have hwin' : now < t + (rateLimitDurationSecs : Int) * 1000 := by omega
    have hcs : can_send_notification st now env.readLastSentOk = false := by
      unfold can_send_notification
      rw [hread, hst]
      unfold liveVal
      simp only [if_pos rfl, if_pos hwin']
      simp
      omega
    unfold dispatchToken
    rw [if_neg (by rw [hcs]; exact Bool.false_ne_true)]
    exact ⟨rfl, rfl, rfl⟩
  · intro init tr hinit henv hchain
    have hpw : List.Pairwise (· ≤ ·) (tr.map (fun i => i.now)) :=
      List.chain'_iff_pairwise.mp hchain
    have h := runDispatches_safety_aux tr init none hinit henv hpw
      (fun t ht => by cases ht)
    simpa using h

/-- Token state for the C2 witness throttle step: `last_sent = 500`,
expiring at 2500 ms. -/
def c2wst : TokenKV := { lastSent := some (500, 2500), unsent := none }

/-- Trace for the C2 witness safety run: successful sends at 0 and 2500 ms
with all Redis operations succeeding. -/
def c2wtrace : List DispatchInput :=
  [{ now := 0, env := allOkEnv, title := cTitle, body := cBody },
    { now := 2500, env := allOkEnv, title := cTitle, body := cBody }]

/-- Witness for the amended C2: a dispatch 1000 ms after a send is
skipped, and a well-behaved trace keeps successful sends at least one
rate window apart. -/
theorem C2_witness :
    (dispatchToken c2wst 1500 allOkEnv cTitle cBody).outcome = .skipped ∧
    List.Chain' (fun a b => b - a ≥ (rateLimitDurationSecs : Int) * 1000)
      (sentTimes (runDispatches c2init c2wtrace).2) := by
  constructor
  · exact (C2_rate_limit_amended.1 c2wst 1500 500 allOkEnv cTitle cBody
      rfl rfl (by decide)).1
  · refine C2_rate_limit_amended.2 c2init c2wtrace rfl (by decide) ?_
    show List.Chain' (· ≤ ·) [(0 : Int), 2500]
    rw [List.chain'_cons]
    exact ⟨by norm_num, List.chain'_singleton _⟩

/-- C6: for a dispatch the rate limiter allows: if the `unsent_count` read
is greater than 1, the payload is exactly the digest title and body
(otherwise the caller-supplied title/body); after a successful send the
code issues `SETEX last_sent = now` with TTL = rate window and
`SETEX unsent_count = 0` with TTL 24 h (and the state reflects each update
that succeeds); after a terminal send failure neither key is updated and
no write is issued. -/
theorem C6_digest_and_updates (st : TokenKV) (now : Int) (env : DispatchEnv)
    (title body : String) :
    (can_send_notification st now env.readLastSentOk = true → env.sendOk = true →
      ((get_unsent_notification_count st now env.readUnsentOk).getD 0 > 1 →
        (dispatchToken st now env title body).outcome =
          .sent digestTitle
            (digestBody ((get_unsent_notification_count st now env.readUnsentOk).getD 0))) ∧
      (¬ (get_unsent_notification_count st now env.readUnsentOk).getD 0 > 1 →
        (dispatchToken st now env title body).outcome = .sent title body) ∧
      (dispatchToken st now env title body).writes =
        [.setLastSent now rateLimitDurationSecs,
          .setUnsentCount 0 unsentCountDurationSecs] ∧
      (env.writeLastSentOk = true →
        (dispatchToken st now env title body).state.lastSent =
          some (now, now + (rateLimitDurationSecs : Int) * 1000)) ∧
      (env.writeUnsentOk = true →
        (dispatchToken st now env title body).state.unsent =
          some (0, now + (unsentCountDurationSecs : Int) * 1000))) ∧
    (can_send_notification st now env.readLastSentOk = true → env.sendOk = false →
      (dispatchToken st now env title body).state = st ∧
      (dispatchToken st now env title body).outcome = .failed ∧
      (dispatchToken st now env title body).writes = []) := by
  constructor
  · intro hcs hsend
    refine ⟨?_, ?_, ?_, ?_, ?_⟩
    · intro hcnt
      unfold dispatchToken
      rw [if_pos hcs, if_pos hsend]
      simp [hcnt]
    · intro hcnt
      unfold dispatchToken
      rw [if_pos hcs, if_pos hsend]
      simp [hcnt]
    · unfold dispatchToken
      rw [if_pos hcs, if_pos hsend]
    · intro hw
      unfold dispatchToken
      rw [if_pos hcs, if_pos hsend]
      simp [hw]
    · intro hw
      unfold dispatchToken
      rw [if_pos hcs, if_pos hsend]
      simp [hw]
  · intro hcs hsend
    unfold dispatchToken
    rw [if_pos hcs, hsend]
    exact ⟨rfl, rfl, rfl⟩

/-- Token state for the C6 witness: three unsent notifications recorded,
no live `last_sent`. -/
def c6st : TokenKV := { lastSent := none, unsent := some (3, 1000000000000) }

/-- Witness for C6: a concrete allowed dispatch with `unsent_count = 3`
sends the digest payload verbatim and resets the counters. -/
theorem C6_witness :
    (dispatchToken c6st 1000 allOkEnv cTitle cBody).outcome =
      .sent digestTitle (digestBody 3) ∧
    (dispatchToken c6st 1000 allOkEnv cTitle cBody).state.unsent =
      some (0, 1000 + (unsentCountDurationSecs : Int) * 1000) ∧
    (dispatchToken c6st 1000 allOkEnv cTitle cBody).state.lastSent =
      some (1000, 1000 + (rateLimitDurationSecs : Int) * 1000) := by
  have h := (C6_digest_and_updates c6st 1000 allOkEnv cTitle cBody).1 (by decide) rfl
  exact ⟨h.1 (by decide), h.2.2.2.2 rfl, h.2.2.2.1 rfl⟩

/-- C10: the rate limiter fails open. A failed `last_sent` read — and
likewise an absent or expired key — never blocks the dispatch (the outcome
is never a skip); a failed or absent `unsent_count` read is treated as 0,
so it can never trigger the digest payload: an allowed send then carries
the caller's title and body. -/
theorem C10_fail_open (st : TokenKV) (now : Int) (env : DispatchEnv)
    (title body : String) :
    (env.readLastSentOk = false →
      (dispatchToken st now env title body).outcome ≠ .skipped) ∧
    (liveVal st.lastSent now = none →
      (dispatchToken st now env title body).outcome ≠ .skipped) ∧
    (env.readUnsentOk = false →
      (get_unsent_notification_count st now env.readUnsentOk).getD 0 = 0) ∧
    (env.readUnsentOk = false → env.sendOk = true →
      (dispatchToken st now env title body).outcome ≠ .skipped →
      (dispatchToken st now env title body).outcome = .sent title body) := by
  have hsendable : ∀ (hcs : can_send_notification st now env.readLastSentOk = true),
      (dispatchToken st now env title body).outcome ≠ .skipped := by
    intro hcs
    unfold dispatchToken
    rw [if_pos hcs]
    by_cases hsend : env.sendOk
    · simp only [hsend, if_true]
      by_cases hcnt : (get_unsent_notification_count st now env.readUnsentOk).getD 0 > 1 <;>
        simp [hcnt]
    · simp [hsend]
  constructor
  · intro hread
    apply hsendable
    unfold can_send_notification
    rw [hread]
    simp
  constructor
  · intro hlive
    apply hsendable
    unfold can_send_notification
    cases hread : env.readLastSentOk <;> simp [hlive]
  constructor
  · intro hread
    unfold get_unsent_notification_count
    rw [hread]
    rfl
  · intro hread hsend hns
    have hcnt : (get_unsent_notification_count st now env.readUnsentOk).getD 0 = 0 := by
      unfold get_unsent_notification_count
      rw [hread]
      rfl
    by_cases hcs : can_send_notification st now env.readLastSentOk
    · unfold dispatchToken
      rw [if_pos hcs, if_pos hsend]
      simp [hcnt]
    · exfalso
      apply hns
      unfold dispatchToken
      rw [if_neg (by rw [Bool.not_eq_true] at hcs; rw [hcs]; exact Bool.false_ne_true)]

/-- Environment with both Redis reads failing (send itself succeeds). -/
def c10env : DispatchEnv :=
  { allOkEnv with readLastSentOk := false, readUnsentOk := false }

/-- Witness for C10: with `last_sent` live inside the window but both
reads failing, the dispatch still proceeds with the caller's payload, and
the errored `unsent_count` read evaluates to 0. -/
theorem C10_witness :
    (dispatchToken c2stActive 1000 c10env cTitle cBody).outcome =
      .sent cTitle cBody ∧
    (get_unsent_notification_count c2stActive 1000 c10env.readUnsentOk).getD 0 = 0 := by
  have h := C10_fail_open c2stActive 1000 c10env cTitle cBody
  exact ⟨h.2.2.2 rfl rfl (h.1 rfl), h.2.2.1 rfl⟩

/-- C8 as amended: a cache hit returns the stored (cloned) vector without
touching the store; a miss queries the store filtered by the user, retains
only `ACTIVE` rows, populates the cache per retained token, and returns
them; but when the store returns no `ACTIVE` rows nothing is inserted, so
the empty result is NOT cached and a second lookup for the same user
queries the store again. -/
theorem C8_token_cache_amended (cache : List (String × List String))
    (store : List UserFcmToken) (u : String) :
    (∀ toks, lookupAssoc cache u = some toks →
      get_user_fcm_tokens cache store u =
        { tokens := toks, cache := cache, queried := false }) ∧
    (lookupAssoc cache u = none →
      (get_user_fcm_tokens cache store u).queried = true ∧
      (get_user_fcm_tokens cache store u).tokens =
        ((store.filter (fun t => decide (t.user_id = u))).filter
          (fun t => t.status = activeStatus)).map (fun t => t.token)) ∧
    (lookupAssoc cache u = none →
      (∀ t ∈ store, t.user_id = u → ¬ t.status = activeStatus) →
      (get_user_fcm_tokens cache store u).cache = cache ∧
      (get_user_fcm_tokens (get_user_fcm_tokens cache store u).cache
        store u).queried = true) := by
  refine ⟨?_, ?_, ?_⟩
  · intro toks htoks
    unfold get_user_fcm_tokens
    rw [htoks]
  · intro hmiss
    unfold get_user_fcm_tokens
    rw [hmiss]
    refine ⟨rfl, ?_⟩
    exact fcmScan_snd u (store.filter (fun t => decide (t.user_id = u))) cache []
  · intro hmiss hna
    have hna' : ∀ t ∈ store.filter (fun t => decide (t.user_id = u)),
        ¬ t.status = activeStatus := by
      intro t ht
      have := List.mem_filter.mp ht
      exact hna t this.1 (by simpa using this.2)
    have hcache : (get_user_fcm_tokens cache store u).cache = cache := by
      unfold get_user_fcm_tokens
      rw [hmiss]
      exact fcmScan_fst_of_no_active u
        (store.filter (fun t => decide (t.user_id = u))) cache [] hna'
    refine ⟨hcache, ?_⟩
    rw [hcache]
    unfold get_user_fcm_tokens
    rw [hmiss]

/-- Store with a single inactive token row for the C8 counterexample. -/
def c8store : List UserFcmToken :=
  [{ user_id := "u1", device_id := "d1", token := "tok1", status := "INACTIVE" }]

/-- The user the C8 counterexample looks up. -/
def c8u : String := "u1"

/-- Counterexample to C8: when the store returns no `ACTIVE` token, the
empty result is not cached — the cache is left empty and a second lookup
for the same user queries the store again, contradicting the claim that
the empty result is cached. -/
theorem C8_counterexample :
    (get_user_fcm_tokens [] c8store c8u).tokens = [] ∧
    (get_user_fcm_tokens [] c8store c8u).queried = true ∧
    (get_user_fcm_tokens [] c8store c8u).cache = [] ∧
    (get_user_fcm_tokens (get_user_fcm_tokens [] c8store c8u).cache
      c8store c8u).queried = true := by
  refine ⟨by decide, by decide, by decide, by decide⟩

/-- A cache already holding tokens for the witness user. -/
def c8cacheHit : List (String × List String) := [(c8u, ["tok1", "tok2"])]

/-- Store with one active and one inactive row for the witness user. -/
def c8storeMixed : List UserFcmToken :=
  [{ user_id := "u1", device_id := "d1", token := "tokA", status := "ACTIVE" },
    { user_id := "u1", device_id := "d2", token := "tokB", status := "INACTIVE" }]

/-- Witness for the amended C8: a hit returns the cached vector without
querying; a miss returns exactly the active tokens. -/
theorem C8_witness :
    get_user_fcm_tokens c8cacheHit c8storeMixed c8u =
      { tokens := ["tok1", "tok2"], cache := c8cacheHit, queried := false } ∧
    (get_user_fcm_tokens [] c8storeMixed c8u).queried = true ∧
    (get_user_fcm_tokens [] c8storeMixed c8u).tokens = ["tokA"] := by
  have h := C8_token_cache_amended c8cacheHit c8storeMixed c8u
  have h2 := (C8_token_cache_amended [] c8storeMixed c8u).2.1 rfl
  refine ⟨h.1 (["tok1", "tok2"]) rfl, h2.1, ?_⟩
  rw [h2.2]
  decide

/-- Witness for the amended C3: Order rendering is identical at two
different wall-clock instants, and an all-Order batch groups identically
at the two instants. -/
theorem C3_witness :
    (NotifMetadata.order { order_id := 42, status := "NEW" }).construct_message wTime =
      (NotifMetadata.order { order_id := 42, status := "NEW" }).construct_message c3time2 ∧
    group_by_user_id [c1m1] wPrefsNone wTime =
      group_by_user_id [c1m1] wPrefsNone c3time2 := by
  refine ⟨C3_determinism_amended.1 _ wTime c3time2,
    C3_determinism_amended.2 [c1m1] wPrefsNone wTime c3time2 ?_⟩
  intro m hm
  simp at hm
  subst hm
  exact ⟨{ order_id := 42, status := "NEW" }, rfl⟩
